import Mathlib

/-!
Verification of the fishbone (Ishikawa) root-cause-analysis editor.

This file gives a shallow embedding of the program's document model
(types.ts), its initial document (constants.ts), the command interpreter
embedded in `handleSendMessage` / `addNodeFishbone` (App.tsx), the cascade
delete handler `handleDeleteNode`, React Flow's `addEdge` helper as used by
the interpreter, and the JSON import validation of `handleFileChange`.
Machine-level JavaScript details that the code relies on are modelled
explicitly: string truthiness (`desiredId && ...`, `title || ...`) becomes
an emptiness test on `Option String`, `Date.now()` becomes a natural-number
tick `t` threaded through the interpreter (one tick per command), and
`uuidv4()` ids are derived from the same tick.
-/

namespace Fishbone

/-- Node kinds, from `NodeType` in types.ts. -/
inductive NodeType
  | PROBLEM
  | CATEGORY
  | SPINE
deriving DecidableEq

/-- Supporting artifact for a cause, from `Evidence` in types.ts. -/
structure Evidence where
  id : String
  name : String
  description : Option String
deriving DecidableEq

/-- Contributing factor, from `Cause` in types.ts. -/
structure Cause where
  id : String
  name : String
  description : Option String
  evidence : List Evidence
deriving DecidableEq

/-- Content payload of a node, from `ProcessNodeData` in types.ts.
The `onEdit` callback field is behavioral, not data, and is omitted. -/
structure NodeData where
  id : String
  type : NodeType
  title : String
  description : Option String
  causes : List Cause
deriving DecidableEq

/-- 2-D coordinate. All coordinates manipulated by the program are
integer-valued, so `Int` is an exact model. -/
structure Pos where
  x : Int
  y : Int
deriving DecidableEq

/-- A React Flow node as used by the program (`type: 'processNode'` is a
constant on every node and is omitted). -/
structure FNode where
  id : String
  position : Pos
  data : NodeData
deriving DecidableEq

/-- Visual style tag of an edge (`style: { strokeWidth, stroke }`). -/
structure EdgeStyle where
  strokeWidth : Nat
  stroke : String
deriving DecidableEq

/-- A React Flow edge as used by the program.  Optional fields that some
construction sites omit (`label`, `type`, `sourceHandle`, `targetHandle`,
`data` with its `causes` list) are `Option`s defaulting to `none`. -/
structure FEdge where
  id : String
  source : String
  target : String
  label : Option String := none
  style : EdgeStyle
  etype : Option String := none
  sourceHandle : Option String := none
  targetHandle : Option String := none
  dataCauses : Option (List Cause) := none
deriving DecidableEq

/-- The node and edge collections held by the store
(`useNodesState` / `useEdgesState`). -/
structure Doc where
  nodes : List FNode
  edges : List FEdge
deriving DecidableEq

/-- Spine segment style, from constants.ts. -/
def spineStyle : EdgeStyle := ⟨4, "#475569"⟩

/-- Rib / user connection style, from constants.ts and App.tsx. -/
def ribStyle : EdgeStyle := ⟨2, "#64748b"⟩

/-- The fixed horizontal spine increment, `SPACING_X` in constants.ts;
the literal `350` used by the spine-extension code in `addNodeFishbone`. -/
def SPACING : Int := 350

/-- Helper to build an initial spine node (constants.ts). -/
def mkSpineNode (i : String) (x : Int) : FNode :=
  ⟨i, ⟨x, 300⟩, ⟨i, NodeType.SPINE, "", none, []⟩⟩

/-- Helper to build an initial category node (constants.ts). -/
def mkCategoryNode (i : String) (x y : Int) (title descr : String) : FNode :=
  ⟨i, ⟨x, y⟩, ⟨i, NodeType.CATEGORY, title, some descr, []⟩⟩

/-- `INITIAL_REACTFLOW_NODES` from constants.ts. -/
def initialNodes : List FNode :=
  [ mkSpineNode "spine_tail" 50
  , mkSpineNode "spine_1" 400
  , mkSpineNode "spine_2" 750
  , mkSpineNode "spine_3" 1100
  , ⟨"problem", ⟨1350, 265⟩,
      ⟨"problem", NodeType.PROBLEM, "Problem Statement",
        some "Define the issue here", []⟩⟩
  , mkCategoryNode "people" 250 50 "People" "Training, staffing, roles"
  , mkCategoryNode "technology" 250 550 "Technology" "Systems, config, outages"
  , mkCategoryNode "process" 600 50 "Process" "Procedures, approvals"
  , mkCategoryNode "governance" 600 550 "Governance" "Policies, oversight"
  , mkCategoryNode "data" 950 50 "Data & Tools" "Quality, integrity"
  , mkCategoryNode "environment" 950 550 "Environment" "Measurement, culture, external"
  ]

/-- Helper to build an initial spine segment edge (constants.ts). -/
def mkSpineEdge (i s tg : String) : FEdge :=
  { id := i, source := s, target := tg, style := spineStyle, etype := some "straight" }

/-- Helper to build an initial rib edge (constants.ts); `top` says whether the
category sits on the top row. -/
def mkRibEdge (i s tg : String) (top : Bool) : FEdge :=
  { id := i, source := s, target := tg, style := ribStyle, etype := some "straight"
  , sourceHandle := some (if top then "bottom" else "top")
  , targetHandle := some (if top then "rib-top" else "rib-bottom") }

/-- `INITIAL_REACTFLOW_EDGES` from constants.ts. -/
def initialEdges : List FEdge :=
  [ mkSpineEdge "s1" "spine_tail" "spine_1"
  , mkSpineEdge "s2" "spine_1" "spine_2"
  , mkSpineEdge "s3" "spine_2" "spine_3"
  , mkSpineEdge "s4" "spine_3" "problem"
  , mkRibEdge "e_people" "people" "spine_1" true
  , mkRibEdge "e_tech" "technology" "spine_1" false
  , mkRibEdge "e_proc" "process" "spine_2" true
  , mkRibEdge "e_gov" "governance" "spine_2" false
  , mkRibEdge "e_data" "data" "spine_3" true
  , mkRibEdge "e_env" "environment" "spine_3" false
  ]

/-- The initial document. -/
def initDoc : Doc := ⟨initialNodes, initialEdges⟩

/-- A document whose spine consists of the sentinel tail plus exactly one
spine node, both of whose category slots are free (the shape used by the
slot-fill-order test property). -/
def docOneSpine : Doc :=
  ⟨[mkSpineNode "spine_tail" 50, mkSpineNode "spine_1" 400,
    ⟨"problem", ⟨1350, 265⟩,
      ⟨"problem", NodeType.PROBLEM, "Problem Statement", some "Define the issue here", []⟩⟩],
   [mkSpineEdge "s1" "spine_tail" "spine_1", mkSpineEdge "s4" "spine_1" "problem"]⟩

/-! ### JavaScript-level helpers -/

/-- JS string truthiness for an optional string: `undefined` and the empty
string are falsy. -/
def truthy : Option String → Bool
  | none => false
  | some s => s != ""

/-- JS string falsiness (negation of `truthy`). -/
def falsyS (o : Option String) : Bool := !truthy o

/-- Checks whether a character list starts with another (helper for JS
`String.prototype.includes`). -/
def charsStartWith : List Char → List Char → Bool
  | _, [] => true
  | [], _ :: _ => false
  | a :: as, b :: bs => a == b && charsStartWith as bs

/-- Contiguous-substring test on character lists (JS
`String.prototype.includes`). -/
def charsContain : List Char → List Char → Bool
  | [], needle => needle.isEmpty
  | a :: as, needle => charsStartWith (a :: as) needle || charsContain as needle

/-- JS `toLowerCase` (the strings compared by this program are ASCII, where
the two coincide characterwise). -/
def lowerStr (s : String) : String := ⟨s.data.map Char.toLower⟩

/-- `title?.toLowerCase().includes('problem')` from `addNodeFishbone`. -/
def containsProblem (title : Option String) : Bool :=
  match title with
  | some s => charsContain (lowerStr s).data "problem".data
  | none => false

/-- First node with the given id (`localNodes.find(n => n.id === i)`). -/
def findNode (ns : List FNode) (i : String) : Option FNode :=
  ns.find? (fun n => n.id == i)

/-- Replace the first element satisfying `p` by its image under `f`
(the `findIndex` / assignment idiom used throughout App.tsx). -/
def updateFirst {α : Type} (p : α → Bool) (f : α → α) : List α → List α
  | [] => []
  | a :: as => if p a then f a :: as else a :: updateFirst p f as

/-- Remove the first element satisfying `p` (the `findIndex` / `splice`
idiom used by the spine-extension code). -/
def removeFirst {α : Type} (p : α → Bool) : List α → List α
  | [] => []
  | a :: as => if p a then as else a :: removeFirst p as

/-! ### React Flow `addEdge` (used by the `connect_nodes` handler) -/

/-- Handle comparison used by React Flow's `connectionExists`: equal, or
both falsy (`undefined`, `null` or empty). -/
def handleEq (a b : Option String) : Bool :=
  a == b || (falsyS a && falsyS b)

/-- React Flow `connectionExists`: an edge with the same source, target and
handles is already present. -/
def connectionExists (e : FEdge) (es : List FEdge) : Bool :=
  es.any (fun el =>
    el.source == e.source && el.target == e.target &&
    handleEq el.sourceHandle e.sourceHandle && handleEq el.targetHandle e.targetHandle)

/-- React Flow `addEdge`: skip when source or target is falsy or when the
connection already exists, otherwise append. -/
def addEdgeRF (e : FEdge) (es : List FEdge) : List FEdge :=
  if e.source == "" || e.target == "" then es
  else if connectionExists e es then es
  else es ++ [e]

/-! ### The layout / node adder `addNodeFishbone` (App.tsx) -/

/-- Insert a node into a list already sorted by ascending `x`, after every
element whose `x` does not exceed it (keeps the sort stable). -/
def insertByX (a : FNode) : List FNode → List FNode
  | [] => [a]
  | b :: bs =>
    if b.position.x ≤ a.position.x then b :: insertByX a bs else a :: b :: bs

/-- Stable sort by ascending horizontal position, modelling the JS
`sort((a,b) => a.position.x - b.position.x)` (stable per ES2019). -/
def sortByX (l : List FNode) : List FNode :=
  l.foldl (fun acc a => insertByX a acc) []

/-- The spine nodes considered by the layout: every `SPINE` node except the
sentinel `spine_tail`, sorted by ascending horizontal position. -/
def spineList (d : Doc) : List FNode :=
  sortByX (d.nodes.filter (fun n => n.data.type == NodeType.SPINE && n.id != "spine_tail"))

/-- Does this edge occupy the "above" slot of the spine node with id `sid`:
it targets `sid` and its source node (first match by id) sits above the
spine baseline (`y < 300`)? -/
def isTopRibEdge (ns : List FNode) (sid : String) (e : FEdge) : Bool :=
  e.target == sid &&
    (match findNode ns e.source with
     | some s => decide (s.position.y < 300)
     | none => false)

/-- Does this edge occupy the "below" slot (`y > 300`)? -/
def isBottomRibEdge (ns : List FNode) (sid : String) (e : FEdge) : Bool :=
  e.target == sid &&
    (match findNode ns e.source with
     | some s => decide (s.position.y > 300)
     | none => false)

/-- Occupancy of the "above" slot of spine `sid` (`topRib` in the code). -/
def hasTopRib (d : Doc) (sid : String) : Bool :=
  d.edges.any (isTopRibEdge d.nodes sid)

/-- Occupancy of the "below" slot of spine `sid` (`bottomRib` in the code). -/
def hasBottomRib (d : Doc) (sid : String) : Bool :=
  d.edges.any (isBottomRibEdge d.nodes sid)

/-- Which vertical slot a new category goes into. -/
inductive Slot
  | top
  | bottom
deriving DecidableEq

/-- The slot-search loop of `addNodeFishbone`: walk the sorted spine nodes;
at the first one with a free "above" slot attach above, otherwise at the
first one with a free "below" slot attach below; report the spine id, the
new node position and the slot. -/
def findSlot (d : Doc) : List FNode → Option (String × Pos × Slot)
  | [] => none
  | s :: rest =>
    if !hasTopRib d s.id then some (s.id, ⟨s.position.x - 150, 50⟩, Slot.top)
    else if !hasBottomRib d s.id then some (s.id, ⟨s.position.x - 150, 550⟩, Slot.bottom)
    else findSlot d rest

/-- The id a non-suppressed `add_node` assigns to its new node:
`desiredId || n-$(Date.now())`. -/
def usedNodeId (t : Nat) (desiredId : Option String) : String :=
  match desiredId with
  | some i => if i == "" then "n-" ++ toString t else i
  | none => "n-" ++ toString t

/-- The id of the spine node a spine extension would create,
`spine_$(spineNodes.length + 1)_auto`. -/
def spineAutoId (d : Doc) : String :=
  "spine_" ++ toString ((spineList d).length + 1) ++ "_auto"

/-- The duplicate-suppression guard of `addNodeFishbone`:
`desiredId && localNodes.find(n => n.id === desiredId)`. -/
def duplicateSuppressed (d : Doc) (desiredId : Option String) : Bool :=
  truthy desiredId && (findNode d.nodes (desiredId.getD "")).isSome

/-- The rib edge `addNodeFishbone` appends when a target spine was found. -/
def mkAutoRib (t : Nat) (newNodeId targetSpineId : String) (handleTop : Bool) : FEdge :=
  { id := "e-auto-" ++ toString t, source := newNodeId, target := targetSpineId
  , style := ribStyle, etype := some "straight"
  , sourceHandle := some (if handleTop then "bottom" else "top")
  , targetHandle := some (if handleTop then "rib-top" else "rib-bottom") }

/-- The structural edge `s-auto-...` from the old last spine node to the
freshly created spine node. -/
def mkSpineExt (t : Nat) (s tg : String) : FEdge :=
  { id := "s-auto-" ++ toString t, source := s, target := tg
  , style := spineStyle, etype := some "straight" }

/-- The structural edge `s-end-...` from the freshly created spine node to
the PROBLEM node. -/
def mkSpineEnd (t : Nat) (s tg : String) : FEdge :=
  { id := "s-end-" ++ toString t, source := s, target := tg
  , style := spineStyle, etype := some "straight" }

/-- The spine-extension block of `addNodeFishbone`
(`if (!targetSpineId && problemNode)`): shift the PROBLEM node `p` right by
`SPACING = 350`, append a fresh spine node aligned with the baseline,
connect the old last spine node to it, remove the first edge into the
PROBLEM node and connect the new spine node to the PROBLEM node instead. -/
def extendSpine (t : Nat) (d : Doc) (p : FNode) : Doc :=
  let oldProblemX := p.position.x
  let newSpineX := oldProblemX - 250
  let nodes1 := updateFirst (fun n => n.id == p.id)
    (fun _ => { p with position := ⟨oldProblemX + 350, p.position.y⟩ }) d.nodes
  let newSpineId := spineAutoId d
  let newSpineNode : FNode :=
    ⟨newSpineId, ⟨newSpineX + 350, 300⟩, ⟨newSpineId, NodeType.SPINE, "", none, []⟩⟩
  let nodes2 := nodes1 ++ [newSpineNode]
  let edges1 :=
    match (spineList d).getLast? with
    | some lastSpine => d.edges ++ [mkSpineExt t lastSpine.id newSpineId]
    | none => d.edges
  let edges2 := removeFirst (fun e => e.target == p.id) edges1
  let edges3 := edges2 ++ [mkSpineEnd t newSpineId p.id]
  ⟨nodes2, edges3⟩

/-- The placement logic of `addNodeFishbone`: try the slot search; if it
found nothing (`targetSpineId` still falsy) and a PROBLEM node exists,
extend the spine.  Returns the target spine id (possibly empty), the new
node's position, whether it connects as a top node, and the (possibly
extended) working document. -/
def layoutStage (t : Nat) (d : Doc) : String × Pos × Bool × Doc :=
  let slotResult :=
    match findSlot d (spineList d) with
    | some (sid, p, Slot.top) => (sid, p, true)
    | some (sid, p, Slot.bottom) => (sid, p, false)
    | none => ("", (⟨0, 0⟩ : Pos), true)
  if slotResult.1 == "" then
    match d.nodes.find? (fun n => n.data.type == NodeType.PROBLEM) with
    | some p =>
      (spineAutoId d, (⟨p.position.x - 250 + 350 - 150, 50⟩ : Pos), true,
       extendSpine t d p)
    | none => (slotResult.1, slotResult.2.1, slotResult.2.2, d)
  else (slotResult.1, slotResult.2.1, slotResult.2.2, d)

/-- The node record created by a non-suppressed `add_node` (title defaults
to "Category" when falsy, description to the empty string). -/
def mkNewNode (t : Nat) (title description desiredId : Option String) (pos : Pos) : FNode :=
  ⟨usedNodeId t desiredId, pos,
    ⟨usedNodeId t desiredId,
      (if containsProblem title then NodeType.PROBLEM else NodeType.CATEGORY),
      (match title with | some s => if s == "" then "Category" else s | none => "Category"),
      some (description.getD ""), []⟩⟩

/-- `addNodeFishbone` from App.tsx.  Returns the id handed back to the
caller together with the updated working document.  `t` is the `Date.now()`
tick of this command. -/
def addNodeFishbone (t : Nat) (title description desiredId : Option String)
    (d : Doc) : String × Doc :=
  if duplicateSuppressed d desiredId then (desiredId.getD "", d)
  else
    let st := layoutStage t d
    let newNode := mkNewNode t title description desiredId st.2.1
    let nodesF := st.2.2.2.nodes ++ [newNode]
    let edgesF :=
      if st.1 != "" then st.2.2.2.edges ++ [mkAutoRib t newNode.id st.1 st.2.2.1]
      else st.2.2.2.edges
    (newNode.id, ⟨nodesF, edgesF⟩)

/-! ### The command interpreter (tool-call loop of `handleSendMessage`) -/

/-- The typed commands produced by the advisory process (tool schema in
geminiService.ts); `unknown` stands for a tool name outside the closed set,
which the interpreter's if/else chain ignores. -/
inductive Cmd
  | clear_graph
  | add_node (title description desiredId : Option String)
  | connect_nodes (sourceId targetId : String) (label : Option String)
  | update_node (id : String) (title description : Option String)
  | add_cause (targetId : String) (targetType : Option String)
      (name : String) (description : Option String)
  | add_evidence (targetId : String) (targetType : Option String)
      (causeName name : String) (description : Option String)
  | unknown (name : String)
deriving DecidableEq

/-- `targetType === 'NODE' || !targetType` from the `add_cause` and
`add_evidence` handlers. -/
def nodeTargetB (targetType : Option String) : Bool :=
  targetType == some "NODE" || falsyS targetType

/-- The edge built by the `connect_nodes` handler. -/
def connectEdge (t : Nat) (s tg : String) (label : Option String) : FEdge :=
  { id := "e-ai-" ++ toString t, source := s, target := tg
  , label := some (label.getD ""), style := ribStyle, dataCauses := some [] }

/-- Field merge performed by the `update_node` handler:
`title: title || n.data.title,
 description: description !== undefined ? description : n.data.description`. -/
def mergeNode (title description : Option String) (n : FNode) : FNode :=
  { n with data :=
    { n.data with
      title := match title with
        | some s => if s == "" then n.data.title else s
        | none => n.data.title
    , description := match description with
        | some s => some s
        | none => n.data.description } }

/-- The fresh `Cause` built by the `add_cause` handler (`uuidv4()` id
modelled from the command tick). -/
def mkCause (t : Nat) (name : String) (description : Option String) : Cause :=
  ⟨"uuid-" ++ toString t, name, description, []⟩

/-- The fresh `Evidence` built by the `add_evidence` handler. -/
def mkEvidence (t : Nat) (name : String) (description : Option String) : Evidence :=
  ⟨"uuid-" ++ toString t, name, description⟩

/-- The cause-list rewrite of the `add_evidence` handler: append the new
evidence to every cause whose name matches case-insensitively and exactly. -/
def applyEvidence (causeName : String) (ev : Evidence) (cs : List Cause) : List Cause :=
  cs.map (fun r =>
    if lowerStr r.name == lowerStr causeName
    then { r with evidence := r.evidence ++ [ev] } else r)

/-- One step of the tool-call loop in `handleSendMessage`: apply a command
to the working copy, returning the new working copy and the change-log
lines this command contributed (the code appends one `•` line per executed
log statement). -/
def applyCmd (t : Nat) (d : Doc) : Cmd → Doc × List String
  | Cmd.clear_graph => (⟨[], []⟩, ["• Cleared canvas"])
  | Cmd.add_node title description desiredId =>
    let r := addNodeFishbone t title description desiredId d
    (r.2, ["• Added Category: " ++ (match title with | some s => s | none => "undefined")])
  | Cmd.connect_nodes s tg label =>
    (⟨d.nodes, addEdgeRF (connectEdge t s tg label) d.edges⟩,
     ["• Connected " ++ s ++ " -> " ++ tg])
  | Cmd.update_node i title description =>
    match findNode d.nodes i with
    | some n =>
      (⟨updateFirst (fun m => m.id == i) (mergeNode title description) d.nodes, d.edges⟩,
       ["• Updated: " ++ (match title with
          | some s => if s == "" then n.data.title else s
          | none => n.data.title)])
    | none => (d, [])
  | Cmd.add_cause targetId targetType name description =>
    let newCause := mkCause t name description
    if nodeTargetB targetType then
      match findNode d.nodes targetId with
      | some n =>
        (⟨updateFirst (fun m => m.id == targetId)
            (fun m => { m with data := { m.data with causes := m.data.causes ++ [newCause] } })
            d.nodes, d.edges⟩,
         ["• Added Factor to " ++ n.data.title ++ ": " ++ name])
      | none => (d, [])
    else if targetType == some "EDGE" then
      match d.edges.find? (fun e => e.id == targetId) with
      | some _ =>
        (⟨d.nodes,
          updateFirst (fun e => e.id == targetId)
            (fun e => { e with dataCauses := some (e.dataCauses.getD [] ++ [newCause]) })
            d.edges⟩,
         ["• Added Factor to Link: " ++ name])
      | none => (d, [])
    else (d, [])
  | Cmd.add_evidence targetId targetType causeName name description =>
    let newEv := mkEvidence t name description
    if nodeTargetB targetType then
      match findNode d.nodes targetId with
      | some _ =>
        (⟨updateFirst (fun m => m.id == targetId)
            (fun m => { m with data :=
              { m.data with causes := applyEvidence causeName newEv m.data.causes } })
            d.nodes, d.edges⟩,
         ["• Added Evidence to Factor " ++ causeName ++ ": " ++ name])
      | none => (d, [])
    else if targetType == some "EDGE" then
      match d.edges.find? (fun e => e.id == targetId) with
      | some _ =>
        (⟨d.nodes,
          updateFirst (fun e => e.id == targetId)
            (fun e => { e with dataCauses := some (applyEvidence causeName newEv (e.dataCauses.getD [])) })
            d.edges⟩,
         ["• Added Evidence to Link Factor " ++ causeName ++ ": " ++ name])
      | none => (d, [])
    else (d, [])
  | Cmd.unknown _ => (d, [])

/-- The whole tool-call loop: apply the commands in order on the working
copy, accumulating the change log; the result is committed in one step. -/
def runCmds (t : Nat) (d : Doc) : List Cmd → Doc × List String
  | [] => (d, [])
  | c :: cs =>
    let r1 := applyCmd t d c
    let r2 := runCmds (t + 1) r1.1 cs
    (r2.1, r1.2 ++ r2.2)

/-! ### Direct graph handlers (App.tsx) -/

/-- `handleDeleteNode`: drop the node and every edge whose source or target
is the deleted id. -/
def handleDeleteNode (i : String) (d : Doc) : Doc :=
  ⟨d.nodes.filter (fun n => n.id != i),
   d.edges.filter (fun e => e.source != i && e.target != i)⟩

/-! ### JSON import (`handleFileChange`) -/

/-- JSON values, for the import payload.  Numbers are modelled as integers;
no numeric field is inspected by the import logic. -/
inductive Json
  | null
  | jbool (b : Bool)
  | num (n : Int)
  | str (s : String)
  | arr (elems : List Json)
  | obj (fields : List (String × Json))

/-- JS property access `data.key` on a parsed JSON value: defined on
objects (duplicate keys: last one wins, as in `JSON.parse`), `undefined`
(here `none`) on every other value. -/
def getField (j : Json) (key : String) : Option Json :=
  match j with
  | Json.obj fields => ((fields.filter (fun kv => kv.1 == key)).getLast?).map (fun kv => kv.2)
  | _ => none

/-- `Array.isArray` on an optional JSON value. -/
def isArrJ : Option Json → Bool
  | some (Json.arr _) => true
  | _ => false

/-- The document at the JSON level, as the import path sees it (`data.nodes`
and `data.edges` are stored without further validation). -/
structure JDoc where
  nodes : List Json
  edges : List Json

/-- `handleFileChange` after the file has been read: `parsed` is the result
of `JSON.parse` (`none` when it threw).  Property access on `null` throws a
`TypeError`, landing in the same catch block as a parse failure. -/
def handleFileChange (parsed : Option Json) (current : JDoc) : JDoc × String :=
  match parsed with
  | none => (current, "Error parsing file.")
  | some Json.null => (current, "Error parsing file.")
  | some j =>
    match getField j "nodes", getField j "edges" with
    | some (Json.arr ns), some (Json.arr es) =>
      (⟨ns, es⟩, "Imported fishbone diagram with " ++ toString ns.length ++ " nodes.")
    | _, _ => (current, "Invalid file format.")

/-- The import validation `Array.isArray(data.nodes) && Array.isArray(data.edges)`
(false as well when parsing failed or the payload is `null`). -/
def validImport (parsed : Option Json) : Bool :=
  match parsed with
  | some j => isArrJ (getField j "nodes") && isArrJ (getField j "edges")
  | none => false

/-! ### Structural invariants (spec §3) and the change log -/

/-- Every edge endpoint references an existing node. -/
def edgesClosed (d : Doc) : Prop :=
  ∀ e ∈ d.edges, (∃ n ∈ d.nodes, n.id = e.source) ∧ (∃ n ∈ d.nodes, n.id = e.target)

/-- Number of PROBLEM nodes in the document. -/
def problemCount (d : Doc) : Nat :=
  (d.nodes.filter (fun n => n.data.type == NodeType.PROBLEM)).length

/-- Number of edges occupying the "above" slot of the spine node `sid`. -/
def aboveRibCount (d : Doc) (sid : String) : Nat :=
  (d.edges.filter (isTopRibEdge d.nodes sid)).length

/-- Number of edges occupying the "below" slot of the spine node `sid`. -/
def belowRibCount (d : Doc) (sid : String) : Nat :=
  (d.edges.filter (isBottomRibEdge d.nodes sid)).length

/-- No spine node carries more than one "above" and one "below" rib. -/
def ribBounded (d : Doc) : Prop :=
  ∀ s ∈ d.nodes, s.data.type = NodeType.SPINE →
    aboveRibCount d s.id ≤ 1 ∧ belowRibCount d s.id ≤ 1

/-- The three documented invariants checked after each commit. -/
def goodDoc (d : Doc) : Prop :=
  edgesClosed d ∧ problemCount d = 1 ∧ ribBounded d

/-- Strengthened inductive invariant: the documented invariants plus the
bookkeeping facts the induction needs (distinct node ids, spine nodes with
nonempty ids sitting on the baseline `y = 300`). -/
def Inv (d : Doc) : Prop :=
  goodDoc d ∧
  (d.nodes.map (fun n => n.id)).Nodup ∧
  (∀ n ∈ d.nodes, n.data.type = NodeType.SPINE → n.id ≠ "" ∧ n.position.y = 300)

/-- Which commands append a change-log line: `clear_graph`, `add_node` and
`connect_nodes` do so unconditionally (even when they end up not changing
the document); `update_node`, `add_cause` and `add_evidence` do so exactly
when their target lookup succeeds (even when no cause matches); unknown
commands never do. -/
def logsLine (d : Doc) : Cmd → Bool
  | Cmd.clear_graph => true
  | Cmd.add_node _ _ _ => true
  | Cmd.connect_nodes _ _ _ => true
  | Cmd.update_node i _ _ => (findNode d.nodes i).isSome
  | Cmd.add_cause targ tt _ _ =>
    if nodeTargetB tt then (findNode d.nodes targ).isSome
    else if tt == some "EDGE" then (d.edges.find? (fun e => e.id == targ)).isSome
    else false
  | Cmd.add_evidence targ tt _ _ _ =>
    if nodeTargetB tt then (findNode d.nodes targ).isSome
    else if tt == some "EDGE" then (d.edges.find? (fun e => e.id == targ)).isSome
    else false
  | Cmd.unknown _ => false

/-- Number of change-log lines a command sequence produces, following the
working document through the interpretation. -/
def loggedCount : Nat → Doc → List Cmd → Nat
  | _, _, [] => 0
  | t, d, c :: cs =>
    (if logsLine d c then 1 else 0) + loggedCount (t + 1) (applyCmd t d c).1 cs

/-! ### Valid command runs (for invariant preservation) -/

/-- Side conditions under which a command is "valid" for invariant
preservation: `connect_nodes` references two existing nodes and does not
target a spine node, `add_node` does not smuggle in a second PROBLEM title
and every id it would mint is fresh (or it is duplicate-suppressed), and
`clear_graph` (which deliberately empties the document, dropping the
PROBLEM node) is excluded. -/
def okCmd (t : Nat) (d : Doc) : Cmd → Prop
  | Cmd.clear_graph => False
  | Cmd.add_node title _ desiredId =>
    containsProblem title = false ∧
    (duplicateSuppressed d desiredId = true ∨
      ((findNode d.nodes (usedNodeId t desiredId)).isNone ∧
       (findNode d.nodes (spineAutoId d)).isNone ∧
       usedNodeId t desiredId ≠ spineAutoId d))
  | Cmd.connect_nodes s tg _ =>
    (∃ n ∈ d.nodes, n.id = s) ∧ (∃ n ∈ d.nodes, n.id = tg) ∧
    (∀ n ∈ d.nodes, n.id = tg → n.data.type ≠ NodeType.SPINE)
  | Cmd.update_node _ _ _ => True
  | Cmd.add_cause _ _ _ _ => True
  | Cmd.add_evidence _ _ _ _ _ => True
  | Cmd.unknown _ => True

/-- A run of the interpreter along a command list, each command valid in
the working document it meets, the `Date.now()` tick advancing by one per
command. -/
inductive OkRun : Nat → Doc → List Cmd → Doc → Prop
  | nil (t : Nat) (d : Doc) : OkRun t d [] d
  | cons {t : Nat} {d : Doc} {c : Cmd} {cs : List Cmd} {dfin : Doc} :
    okCmd t d c → OkRun (t + 1) (applyCmd t d c).1 cs dfin → OkRun t d (c :: cs) dfin

/-! ## Helper lemmas on the `findIndex`-style list idioms -/

theorem find?_first {α : Type} (p : α → Bool) (l1 l2 : List α) (a : α)
    (h1 : ∀ b ∈ l1, p b = false) (ha : p a = true) :
    (l1 ++ a :: l2).find? p = some a := by
  induction l1 with
  | nil => simp [List.find?_cons_of_pos, ha]
  | cons b bs ih =>
    have hb : p b = false := h1 b (List.mem_cons_self b bs)
    rw [List.cons_append, List.find?_cons_of_neg]
    · exact ih (fun x hx => h1 x (List.mem_cons_of_mem _ hx))
    · simp [hb]

theorem updateFirst_append {α : Type} (p : α → Bool) (f : α → α) (l1 l2 : List α) (a : α)
    (h1 : ∀ b ∈ l1, p b = false) (ha : p a = true) :
    updateFirst p f (l1 ++ a :: l2) = l1 ++ f a :: l2 := by
  induction l1 with
  | nil => simp [updateFirst, ha]
  | cons b bs ih =>
    have hb : p b = false := h1 b (List.mem_cons_self b bs)
    simp only [List.cons_append, updateFirst, hb, Bool.false_eq_true, if_false,
      List.cons.injEq, true_and]
    exact ih (fun x hx => h1 x (List.mem_cons_of_mem _ hx))

theorem updateFirst_of_none {α : Type} (p : α → Bool) (f : α → α) (l : List α)
    (h : ∀ b ∈ l, p b = false) : updateFirst p f l = l := by
  induction l with
  | nil => rfl
  | cons b bs ih =>
    have hb : p b = false := h b (List.mem_cons_self b bs)
    simp only [updateFirst, hb, Bool.false_eq_true, if_false, List.cons.injEq, true_and]
    exact ih (fun x hx => h x (List.mem_cons_of_mem _ hx))

/-! ## C8 — cascade delete -/

/-- C8: `handleDeleteNode` removes the node with the given id and exactly
the set of edges whose source or target equals that id; every other node
and every other edge is kept unchanged. -/
theorem deleteNode_cascade_exact (d : Doc) (i : String) :
    (∀ n, n ∈ (handleDeleteNode i d).nodes ↔ n ∈ d.nodes ∧ n.id ≠ i) ∧
    (∀ e, e ∈ (handleDeleteNode i d).edges ↔
      e ∈ d.edges ∧ e.source ≠ i ∧ e.target ≠ i) := by
  constructor
  · intro n
    simp [handleDeleteNode, List.mem_filter, bne_iff_ne]
  · intro e
    simp [handleDeleteNode, List.mem_filter, bne_iff_ne, and_assoc]

/-! ## C1 — `connect_nodes` and missing endpoints -/

/-- C1 counterexample: a `connect_nodes` whose source id matches no
existing node is not skipped — the edge collection changes (a dangling
edge is inserted) while no error is raised. -/
theorem connect_missing_endpoint_not_skipped :
    (initDoc.nodes.any (fun n => n.id == "ghost")) = false ∧
    (applyCmd 0 initDoc (Cmd.connect_nodes "ghost" "problem" none)).1 ≠ initDoc := by
  decide

/-- C1 amended: `connect_nodes` performs no node-existence check at all.
The node collection is never touched; the edge is skipped exactly when the
source or target id is the empty string or an edge with the same source,
target and (absent) handles already exists, and otherwise is appended as a
dangling-or-not user edge; a change-log line is emitted either way and no
error is raised. -/
theorem connect_inserts_without_existence_check (t : Nat) (d : Doc)
    (s tg : String) (lab : Option String) :
    (applyCmd t d (Cmd.connect_nodes s tg lab)).1.nodes = d.nodes ∧
    ((s = "" ∨ tg = "" ∨ connectionExists (connectEdge t s tg lab) d.edges = true) →
      (applyCmd t d (Cmd.connect_nodes s tg lab)).1.edges = d.edges) ∧
    (s ≠ "" → tg ≠ "" → connectionExists (connectEdge t s tg lab) d.edges = false →
      (applyCmd t d (Cmd.connect_nodes s tg lab)).1.edges
        = d.edges ++ [connectEdge t s tg lab]) ∧
    (applyCmd t d (Cmd.connect_nodes s tg lab)).2
      = ["• Connected " ++ s ++ " -> " ++ tg] := by
  have hsrc : (connectEdge t s tg lab).source = s := rfl
  have htgt : (connectEdge t s tg lab).target = tg := rfl
  refine ⟨rfl, ?_, ?_, rfl⟩
  · intro h
    simp only [applyCmd, addEdgeRF, hsrc, htgt]
    rcases h with h | h | h
    · simp [h]
    · simp [h]
    · simp [h, ite_self]
  · intro hs ht hex
    simp only [applyCmd, addEdgeRF, hsrc, htgt]
    simp [hs, ht, hex]

/-- C1 witness: on the initial document, connecting from the nonexistent
id "ghost" to "problem" appends a dangling edge. -/
theorem connect_inserts_without_existence_check_witness :
    (applyCmd 0 initDoc (Cmd.connect_nodes "ghost" "problem" none)).1.edges
      = initDoc.edges ++ [connectEdge 0 "ghost" "problem" none] :=
  (connect_inserts_without_existence_check 0 initDoc "ghost" "problem" none).2.2.1
    (by decide) (by decide) (by decide)

/-! ## C4 — duplicate suppression on `add_node` -/

/-- C4 counterexample: the suppression guard uses JS truthiness, so a
`desiredId` equal to the empty string is never suppressed even when a node
with id `""` exists (reachable via import): the node count increases. -/
theorem addNode_empty_desiredId_not_suppressed :
    ((⟨[⟨"", ⟨0, 0⟩, ⟨"", NodeType.CATEGORY, "X", none, []⟩⟩], []⟩ : Doc).nodes.any
      (fun n => n.id == "")) = true ∧
    (addNodeFishbone 0 (some "T") none (some "")
      (⟨[⟨"", ⟨0, 0⟩, ⟨"", NodeType.CATEGORY, "X", none, []⟩⟩], []⟩ : Doc)).2.nodes.length
      = 2 := by
  decide

/-- C4 amended: for a NON-EMPTY `desiredId` matching an existing node id,
`add_node` is a no-op returning that id unchanged (so in particular the
node and edge collections and the node count are untouched). -/
theorem addNode_duplicate_suppressed (t : Nat) (title description : Option String)
    (i : String) (d : Doc) (hne : i ≠ "")
    (hfound : (findNode d.nodes i).isSome = true) :
    addNodeFishbone t title description (some i) d = (i, d) := by
  have htr : truthy (some i) = true := by
    simp [truthy, bne_iff_ne, hne]
  unfold addNodeFishbone
  simp [duplicateSuppressed, htr, hfound]

/-- C4 witness: on the initial document, `add_node` with `desiredId`
"people" is suppressed and returns "people". -/
theorem addNode_duplicate_suppressed_witness :
    addNodeFishbone 3 (some "Z") none (some "people") initDoc = ("people", initDoc) :=
  addNode_duplicate_suppressed 3 (some "Z") none "people" initDoc
    (by decide) (by decide)

/-! ## C5 — classification and placement of `add_node` -/

theorem spineAutoId_ne_empty (d : Doc) : spineAutoId d ≠ "" := by
  intro h
  have hlen : (spineAutoId d).length = 0 := by rw [h]; rfl
  unfold spineAutoId at hlen
  rw [String.length_append, String.length_append] at hlen
  have h6 : ("spine_" : String).length = 6 := rfl
  have h5 : ("_auto" : String).length = 5 := rfl
  rw [h6, h5] at hlen
  omega

theorem layoutStage_slot_top (t : Nat) (d : Doc) (sid : String) (p : Pos)
    (h : findSlot d (spineList d) = some (sid, p, Slot.top)) (hsid : sid ≠ "") :
    layoutStage t d = (sid, p, true, d) := by
  simp [layoutStage, h, hsid]

theorem layoutStage_slot_bottom (t : Nat) (d : Doc) (sid : String) (p : Pos)
    (h : findSlot d (spineList d) = some (sid, p, Slot.bottom)) (hsid : sid ≠ "") :
    layoutStage t d = (sid, p, false, d) := by
  simp [layoutStage, h, hsid]

theorem layoutStage_extend (t : Nat) (d : Doc) (pn : FNode)
    (hslot : findSlot d (spineList d) = none)
    (hp : d.nodes.find? (fun n => n.data.type == NodeType.PROBLEM) = some pn) :
    layoutStage t d
      = (spineAutoId d, (⟨pn.position.x - 250 + 350 - 150, 50⟩ : Pos), true,
         extendSpine t d pn) := by
  simp [layoutStage, hslot, hp]

theorem addNodeFishbone_eq (t : Nat) (title description desiredId : Option String)
    (d : Doc) (hsup : duplicateSuppressed d desiredId = false) :
    addNodeFishbone t title description desiredId d
      = ((mkNewNode t title description desiredId (layoutStage t d).2.1).id,
         ⟨(layoutStage t d).2.2.2.nodes
            ++ [mkNewNode t title description desiredId (layoutStage t d).2.1],
          if (layoutStage t d).1 != "" then
            (layoutStage t d).2.2.2.edges
              ++ [mkAutoRib t (mkNewNode t title description desiredId (layoutStage t d).2.1).id
                    (layoutStage t d).1 (layoutStage t d).2.2.1]
          else (layoutStage t d).2.2.2.edges⟩) := by
  simp [addNodeFishbone, hsup]

/-- C5 counterexample: on the initial document, an `add_node` whose title
contains "problem" is classified PROBLEM yet still goes through layout —
here it triggers a spine extension and receives a rib edge onto the new
spine node, contradicting "inserted directly without layout / no rib
edge". -/
theorem addNode_problem_title_gets_rib :
    ((findNode (addNodeFishbone 0 (some "Second Problem Node") none none initDoc).2.nodes
        "n-0").map (fun n => n.data.type) = some NodeType.PROBLEM) ∧
    ((addNodeFishbone 0 (some "Second Problem Node") none none initDoc).2.edges.any
      (fun e => e.source == "n-0" && e.target == "spine_4_auto" && e.style == ribStyle))
      = true := by
  decide

/-- C5 amended: a non-suppressed `add_node` classifies the new node as
PROBLEM exactly when the title case-insensitively contains "problem" and
as CATEGORY otherwise; placement is delegated to the layout for BOTH
kinds — whenever the slot search finds a spine node the rib edge onto it
is created, and when it finds none but a PROBLEM node exists the spine is
extended and the rib edge onto the fresh spine node is created, regardless
of the classification. -/
theorem addNode_classifies_and_always_lays_out (t : Nat)
    (title description desiredId : Option String) (d : Doc)
    (hsup : duplicateSuppressed d desiredId = false) :
    ((addNodeFishbone t title description desiredId d).2.nodes.getLast?).map
        (fun n => (n.id, n.data.type))
      = some (usedNodeId t desiredId,
          if containsProblem title then NodeType.PROBLEM else NodeType.CATEGORY) ∧
    (∀ sid p sl, findSlot d (spineList d) = some (sid, p, sl) → sid ≠ "" →
      ((addNodeFishbone t title description desiredId d).2.nodes.getLast?).map
          (fun n => n.position) = some p ∧
      (sl = Slot.top →
        (addNodeFishbone t title description desiredId d).2.edges
          = d.edges ++ [mkAutoRib t (usedNodeId t desiredId) sid true]) ∧
      (sl = Slot.bottom →
        (addNodeFishbone t title description desiredId d).2.edges
          = d.edges ++ [mkAutoRib t (usedNodeId t desiredId) sid false])) ∧
    (findSlot d (spineList d) = none →
      ∀ pn, d.nodes.find? (fun n => n.data.type == NodeType.PROBLEM) = some pn →
      ((addNodeFishbone t title description desiredId d).2.edges.getLast?)
        = some (mkAutoRib t (usedNodeId t desiredId) (spineAutoId d) true)) := by
  rw [addNodeFishbone_eq t title description desiredId d hsup]
  refine ⟨?_, ?_, ?_⟩
  · simp [List.getLast?_concat, mkNewNode]
  · intro sid p sl hslot hsid
    cases sl with
    | top =>
      rw [layoutStage_slot_top t d sid p hslot hsid]
      refine ⟨?_, ?_, ?_⟩
      · simp [List.getLast?_concat, mkNewNode]
      · intro _
        simp [mkNewNode, bne_iff_ne, hsid]
      · intro h
        exact absurd h (by decide)
    | bottom =>
      rw [layoutStage_slot_bottom t d sid p hslot hsid]
      refine ⟨?_, ?_, ?_⟩
      · simp [List.getLast?_concat, mkNewNode]
      · intro h
        exact absurd h (by decide)
      · intro _
        simp [mkNewNode, bne_iff_ne, hsid]
  · intro hslot pn hp
    rw [layoutStage_extend t d pn hslot hp]
    simp [mkNewNode, bne_iff_ne, spineAutoId_ne_empty d, List.getLast?_concat]

/-- C5 witness: a title containing "Problem" on a one-spine document with a
free "above" slot — the node is typed PROBLEM and still receives a rib
edge onto spine_1. -/
theorem addNode_classifies_and_always_lays_out_witness :
    ((addNodeFishbone 7 (some "Bigger Problem") none none docOneSpine).2.nodes.getLast?).map
        (fun n => (n.id, n.data.type)) = some ("n-7", NodeType.PROBLEM) ∧
    (addNodeFishbone 7 (some "Bigger Problem") none none docOneSpine).2.edges
      = docOneSpine.edges ++ [mkAutoRib 7 "n-7" "spine_1" true] := by
  have h := addNode_classifies_and_always_lays_out 7 (some "Bigger Problem") none none
    docOneSpine (by decide)
  constructor
  · exact h.1.trans (by decide)
  · have h2 := h.2.1 "spine_1" ⟨250, 50⟩ Slot.top (by decide) (by decide)
    exact (h2.2.1 rfl).trans (by decide)

/-! ## C7 — change-log lines -/

theorem applyCmd_log_length (t : Nat) (d : Doc) (c : Cmd) :
    (applyCmd t d c).2.length = if logsLine d c then 1 else 0 := by
  cases c with
  | clear_graph => rfl
  | add_node title ds did => rfl
  | connect_nodes s tg lab => rfl
  | update_node i ti ds =>
    simp only [applyCmd, logsLine]
    split
    · rename_i n h
      simp [h]
    · rename_i h
      simp [h]
  | add_cause targ tt nm ds =>
    simp only [applyCmd, logsLine]
    by_cases hb : nodeTargetB tt = true
    · simp only [hb, if_true]
      split
      · rename_i n h
        simp [h]
      · rename_i h
        simp [h]
    · simp only [Bool.not_eq_true] at hb
      simp only [hb, Bool.false_eq_true, if_false]
      by_cases he : (tt == some "EDGE") = true
      · simp only [he, if_true]
        split
        · rename_i e h
          simp [h]
        · rename_i h
          simp [h]
      · simp only [Bool.not_eq_true] at he
        simp [he]
  | add_evidence targ tt cn nm ds =>
    simp only [applyCmd, logsLine]
    by_cases hb : nodeTargetB tt = true
    · simp only [hb, if_true]
      split
      · rename_i n h
        simp [h]
      · rename_i h
        simp [h]
    · simp only [Bool.not_eq_true] at hb
      simp only [hb, Bool.false_eq_true, if_false]
      by_cases he : (tt == some "EDGE") = true
      · simp only [he, if_true]
        split
        · rename_i e h
          simp [h]
        · rename_i h
          simp [h]
      · simp only [Bool.not_eq_true] at he
        simp [he]
  | unknown nm => rfl

/-- C7 counterexample: a duplicate-suppressed `add_node` leaves the
document unchanged yet still contributes a change-log line, so the log
does not omit lines for no-op commands. -/
theorem changeLog_line_for_noop_addNode :
    (runCmds 0 initDoc [Cmd.add_node (some "X") none (some "people")]).1 = initDoc ∧
    (runCmds 0 initDoc [Cmd.add_node (some "X") none (some "people")]).2.length = 1 := by
  decide

/-- C7 amended: the change log contains exactly one line per command for
which `logsLine` holds: `clear_graph`, `add_node` and `connect_nodes`
always log (even when they are no-ops, such as duplicate-suppressed adds
or connects whose lookup misses), `update_node`, `add_cause` and
`add_evidence` log exactly when their target lookup succeeds (even when no
cause matches), and unknown commands never log. -/
theorem changeLog_one_line_per_logsLine (t : Nat) (d : Doc) (cmds : List Cmd) :
    (runCmds t d cmds).2.length = loggedCount t d cmds ∧
    (∀ c, (applyCmd t d c).2.length = if logsLine d c then 1 else 0) := by
  constructor
  · induction cmds generalizing t d with
    | nil => rfl
    | cons c cs ih =>
      simp only [runCmds, loggedCount, List.length_append, applyCmd_log_length, ih]
  · exact fun c => applyCmd_log_length t d c

/-! ## C10 — `update_node` field merge -/

/-- The single node of the document used to witness the `update_node`
merge semantics. -/
def nodeU : FNode := ⟨"u", ⟨1, 2⟩, ⟨"u", NodeType.CATEGORY, "Old title", some "old descr", []⟩⟩

/-- The document used to witness the `update_node` merge semantics. -/
def docU : Doc := ⟨[nodeU], []⟩

/-- C10: for an `update_node` whose target exists, the target node (the
first one carrying the id) is replaced by the merge and nothing else
changes; the merge keeps the old title when the supplied title is the
empty string (truthiness check) but overwrites the description even with
the empty string (`!== undefined` check), and preserves id, position, kind
and causes. -/
theorem updateNode_empty_title_vs_empty_description (t : Nat) (d : Doc)
    (i : String) (title description : Option String) (pre post : List FNode) (n : FNode)
    (hd : d.nodes = pre ++ n :: post) (hpre : ∀ m ∈ pre, m.id ≠ i) (hn : n.id = i) :
    (applyCmd t d (Cmd.update_node i title description)).1.edges = d.edges ∧
    (applyCmd t d (Cmd.update_node i title description)).1.nodes
      = pre ++ mergeNode title description n :: post ∧
    (title = some "" → (mergeNode title description n).data.title = n.data.title) ∧
    (description = some "" →
      (mergeNode title description n).data.description = some "") ∧
    (mergeNode title description n).id = n.id ∧
    (mergeNode title description n).position = n.position ∧
    (mergeNode title description n).data.type = n.data.type ∧
    (mergeNode title description n).data.causes = n.data.causes := by
  have hfind : findNode d.nodes i = some n := by
    rw [hd]
    exact find?_first _ pre post n
      (fun b hb => beq_eq_false_iff_ne.mpr (hpre b hb)) (beq_iff_eq.mpr hn)
  have hupd : updateFirst (fun m => m.id == i) (mergeNode title description) d.nodes
      = pre ++ mergeNode title description n :: post := by
    rw [hd]
    exact updateFirst_append _ _ pre post n
      (fun b hb => beq_eq_false_iff_ne.mpr (hpre b hb)) (beq_iff_eq.mpr hn)
  refine ⟨?_, ?_, ?_, ?_, rfl, rfl, rfl, rfl⟩
  · simp [applyCmd, hfind]
  · simp [applyCmd, hfind, hupd]
  · intro h
    subst h
    simp [mergeNode]
  · intro h
    subst h
    simp [mergeNode]

/-- C10 witness: on a one-node document, `update_node` with empty title
and empty description keeps the title and clears the description. -/
theorem updateNode_empty_title_vs_empty_description_witness :
    (applyCmd 0 docU (Cmd.update_node "u" (some "") (some ""))).1.nodes
      = [] ++ mergeNode (some "") (some "") nodeU :: [] ∧
    (mergeNode (some "") (some "") nodeU).data.title = nodeU.data.title ∧
    (mergeNode (some "") (some "") nodeU).data.description = some "" := by
  have h := updateNode_empty_title_vs_empty_description 0 docU "u" (some "") (some "")
    [] [] nodeU rfl (by simp) rfl
  exact ⟨h.2.1, h.2.2.1 rfl, h.2.2.2.1 rfl⟩

/-! ## C6 — `add_evidence` matching -/

/-- C6: for an `add_evidence` whose target node (or edge, under
`targetType = "EDGE"`) exists, the target's cause list is rewritten by
`applyEvidence`, which appends the new evidence to exactly those causes
whose name equals `causeName` case-insensitively and exactly, leaving
non-matching causes untouched; every other node and edge is unchanged, and
when zero causes match the cause list is unchanged entirely. -/
theorem addEvidence_case_insensitive_exact (t : Nat) (d : Doc) (targ : String)
    (tt : Option String) (cn nm : String) (ds : Option String) :
    (∀ pre n post, nodeTargetB tt = true → d.nodes = pre ++ n :: post →
      (∀ m ∈ pre, m.id ≠ targ) → n.id = targ →
      (applyCmd t d (Cmd.add_evidence targ tt cn nm ds)).1.edges = d.edges ∧
      (applyCmd t d (Cmd.add_evidence targ tt cn nm ds)).1.nodes
        = pre ++ { n with data := { n.data with
            causes := applyEvidence cn (mkEvidence t nm ds) n.data.causes } } :: post) ∧
    (∀ (k : Nat) (c : Cause) (cs : List Cause), cs.get? k = some c →
      (applyEvidence cn (mkEvidence t nm ds) cs).get? k
        = some (if lowerStr c.name == lowerStr cn
            then { c with evidence := c.evidence ++ [mkEvidence t nm ds] } else c)) ∧
    (∀ cs : List Cause, (∀ c ∈ cs, (lowerStr c.name == lowerStr cn) = false) →
      applyEvidence cn (mkEvidence t nm ds) cs = cs) ∧
    (∀ pre e post, tt = some "EDGE" → d.edges = pre ++ e :: post →
      (∀ f ∈ pre, f.id ≠ targ) → e.id = targ →
      (applyCmd t d (Cmd.add_evidence targ tt cn nm ds)).1.nodes = d.nodes ∧
      (applyCmd t d (Cmd.add_evidence targ tt cn nm ds)).1.edges
        = pre ++ { e with dataCauses := some (applyEvidence cn (mkEvidence t nm ds) (e.dataCauses.getD [])) } :: post) := by
  refine ⟨?_, ?_, ?_, ?_⟩
  · intro pre n post hb hd hpre hn
    have hfind : findNode d.nodes targ = some n := by
      rw [hd]
      exact find?_first _ pre post n
        (fun b hb2 => beq_eq_false_iff_ne.mpr (hpre b hb2)) (beq_iff_eq.mpr hn)
    have hupd := updateFirst_append (fun m : FNode => m.id == targ)
      (fun m => { m with data := { m.data with
        causes := applyEvidence cn (mkEvidence t nm ds) m.data.causes } }) pre post n
      (fun b hb2 => beq_eq_false_iff_ne.mpr (hpre b hb2)) (beq_iff_eq.mpr hn)
    rw [← hd] at hupd
    constructor
    · simp [applyCmd, hb, hfind]
    · simp [applyCmd, hb, hfind, hupd]
  · intro k c cs h
    unfold applyEvidence
    rw [List.get?_map, h]
    rfl
  · intro cs h
    unfold applyEvidence
    induction cs with
    | nil => rfl
    | cons c cs2 ih =>
      have hc := h c (List.mem_cons_self c cs2)
      simp only [List.map_cons, hc, Bool.false_eq_true, if_false, List.cons.injEq, true_and]
      exact ih (fun x hx => h x (List.mem_cons_of_mem _ hx))
  · intro pre e post htt hd hpre he
    subst htt
    have hb : nodeTargetB (some "EDGE") = false := by decide
    have hfind : d.edges.find? (fun f => f.id == targ) = some e := by
      rw [hd]
      exact find?_first _ pre post e
        (fun b hb2 => beq_eq_false_iff_ne.mpr (hpre b hb2)) (beq_iff_eq.mpr he)
    have hupd := updateFirst_append (fun f : FEdge => f.id == targ)
      (fun f => { f with dataCauses := some (applyEvidence cn (mkEvidence t nm ds) (f.dataCauses.getD [])) }) pre post e
      (fun b hb2 => beq_eq_false_iff_ne.mpr (hpre b hb2)) (beq_iff_eq.mpr he)
    rw [← hd] at hupd
    constructor
    · simp [applyCmd, hb, hfind]
    · simp [applyCmd, hb, hfind, hupd]

/-- The cause collection used to witness evidence matching: a cause named
"vendor outage" (matching "Vendor Outage" case-insensitively) and a cause
named "Vendor Outages" (not an exact match). -/
def nodeV : FNode :=
  ⟨"v", ⟨0, 0⟩, ⟨"v", NodeType.CATEGORY, "Vendors", none,
    [⟨"c1", "vendor outage", none, []⟩, ⟨"c2", "Vendor Outages", none, []⟩]⟩⟩

/-- The document used to witness evidence matching. -/
def docV : Doc := ⟨[nodeV], []⟩

/-- C6 witness: `add_evidence` with causeName "Vendor Outage" attaches to
the cause named "vendor outage" and not to "Vendor Outages". -/
theorem addEvidence_case_insensitive_exact_witness :
    (applyCmd 5 docV (Cmd.add_evidence "v" (some "NODE") "Vendor Outage" "log123" none)).1.nodes
      = [] ++ { nodeV with data := { nodeV.data with
          causes := applyEvidence "Vendor Outage" (mkEvidence 5 "log123" none)
            nodeV.data.causes } } :: [] ∧
    ((applyCmd 5 docV (Cmd.add_evidence "v" (some "NODE") "Vendor Outage" "log123" none)).1.nodes.map
      (fun n => n.data.causes.map (fun c => (c.name, c.evidence.length))))
      = [[("vendor outage", 1), ("Vendor Outages", 0)]] := by
  have h := addEvidence_case_insensitive_exact 5 docV "v" (some "NODE")
    "Vendor Outage" "log123" none
  have h1 := h.1 [] nodeV [] (by decide) rfl (by simp) rfl
  refine ⟨h1.2, ?_⟩
  rw [h1.2]
  decide

/-! ## C9 — import validation -/

/-- C9: the import replaces the document only when the parsed payload has
array-typed `nodes` and `edges` fields; on every other payload (including
a failed parse and a `null` payload) a format-error message is reported
and the document is exactly what it was. -/
theorem import_replaces_only_valid (parsed : Option Json) (cur : JDoc) :
    (validImport parsed = false →
      (handleFileChange parsed cur).1 = cur ∧
      ((handleFileChange parsed cur).2 = "Error parsing file." ∨
       (handleFileChange parsed cur).2 = "Invalid file format.")) ∧
    (∀ j ns es, parsed = some j →
      getField j "nodes" = some (Json.arr ns) →
      getField j "edges" = some (Json.arr es) →
      (handleFileChange parsed cur).1 = ⟨ns, es⟩) := by
  constructor
  · intro hv
    cases parsed with
    | none => exact ⟨rfl, Or.inl rfl⟩
    | some j =>
      cases j with
      | null => exact ⟨rfl, Or.inl rfl⟩
      | jbool b => exact ⟨rfl, Or.inr rfl⟩
      | num n => exact ⟨rfl, Or.inr rfl⟩
      | str s => exact ⟨rfl, Or.inr rfl⟩
      | arr xs => exact ⟨rfl, Or.inr rfl⟩
      | obj fs =>
        simp only [handleFileChange]
        split
        · rename_i ns es hns hes
          exfalso
          simp [validImport, hns, hes, isArrJ] at hv
        · exact ⟨rfl, Or.inr rfl⟩
  · intro j ns es hp hn he
    subst hp
    cases j with
    | obj fs =>
      simp [handleFileChange, hn, he]
    | null => simp [getField] at hn
    | jbool b => simp [getField] at hn
    | num n2 => simp [getField] at hn
    | str s => simp [getField] at hn
    | arr xs => simp [getField] at hn

/-! ## C3 — slot-fill order and spine extension -/

theorem findSlot_spec (d : Doc) :
    ∀ (l : List FNode) (sid : String) (p : Pos) (sl : Slot),
      findSlot d l = some (sid, p, sl) →
      ∃ l1 s l2, l = l1 ++ s :: l2 ∧ s.id = sid ∧
        (∀ q ∈ l1, hasTopRib d q.id = true ∧ hasBottomRib d q.id = true) ∧
        ((sl = Slot.top ∧ hasTopRib d s.id = false ∧ p = ⟨s.position.x - 150, 50⟩) ∨
         (sl = Slot.bottom ∧ hasTopRib d s.id = true ∧ hasBottomRib d s.id = false ∧
          p = ⟨s.position.x - 150, 550⟩)) := by
  intro l
  induction l with
  | nil =>
    intro sid p sl h
    simp [findSlot] at h
  | cons s rest ih =>
    intro sid p sl h
    rw [findSlot] at h
    cases ht : hasTopRib d s.id with
    | false =>
      rw [ht] at h
      simp only [Bool.not_false, if_true, Option.some.injEq, Prod.mk.injEq] at h
      obtain ⟨h1, h2, h3⟩ := h
      exact ⟨[], s, rest, rfl, h1, by simp, Or.inl ⟨h3.symm, ht, h2.symm⟩⟩
    | true =>
      rw [ht] at h
      cases hbb : hasBottomRib d s.id with
      | false =>
        rw [hbb] at h
        simp only [Bool.not_true, Bool.not_false, Bool.false_eq_true, if_false, if_true,
          Option.some.injEq, Prod.mk.injEq] at h
        obtain ⟨h1, h2, h3⟩ := h
        exact ⟨[], s, rest, rfl, h1, by simp, Or.inr ⟨h3.symm, ht, hbb, h2.symm⟩⟩
      | true =>
        rw [hbb] at h
        simp only [Bool.not_true, Bool.false_eq_true, if_false] at h
        obtain ⟨l1, s2, l2, hl, hid, hall, hcase⟩ := ih sid p sl h
        refine ⟨s :: l1, s2, l2, by rw [hl, List.cons_append], hid, ?_, hcase⟩
        intro q hq
        rcases List.mem_cons.mp hq with hq1 | hq2
        · subst hq1
          exact ⟨ht, hbb⟩
        · exact hall q hq2

/-- C3: on the document whose spine is the sentinel tail plus one spine
node with both slots free, three category `add_node` commands fill the
"above" slot (top row, y = 50) of that spine node, then its "below" slot
(bottom row, y = 550), and the third triggers spine extension: a new spine
node is created, the PROBLEM node's x grows by exactly `SPACING`, the old
last-spine-to-PROBLEM edge is replaced by last-spine-to-new-spine and
new-spine-to-PROBLEM edges, and the third category lands in the new spine
node's "above" slot.  In general the slot search returns the first spine
node (in the given ascending-x order) with a free slot, preferring "above"
over "below". -/
theorem slot_fill_order_and_extension :
    ((runCmds 10 docOneSpine [Cmd.add_node (some "People") none none]).1
      = ⟨docOneSpine.nodes
           ++ [⟨"n-10", ⟨250, 50⟩, ⟨"n-10", NodeType.CATEGORY, "People", some "", []⟩⟩],
         docOneSpine.edges ++ [mkAutoRib 10 "n-10" "spine_1" true]⟩) ∧
    ((runCmds 10 docOneSpine [Cmd.add_node (some "People") none none,
        Cmd.add_node (some "Machines") none none]).1
      = ⟨docOneSpine.nodes
           ++ [⟨"n-10", ⟨250, 50⟩, ⟨"n-10", NodeType.CATEGORY, "People", some "", []⟩⟩,
               ⟨"n-11", ⟨250, 550⟩, ⟨"n-11", NodeType.CATEGORY, "Machines", some "", []⟩⟩],
         docOneSpine.edges ++ [mkAutoRib 10 "n-10" "spine_1" true,
                               mkAutoRib 11 "n-11" "spine_1" false]⟩) ∧
    ((runCmds 10 docOneSpine [Cmd.add_node (some "People") none none,
        Cmd.add_node (some "Machines") none none,
        Cmd.add_node (some "Methods") none none]).1
      = ⟨[mkSpineNode "spine_tail" 50, mkSpineNode "spine_1" 400,
          ⟨"problem", ⟨1350 + SPACING, 265⟩,
            ⟨"problem", NodeType.PROBLEM, "Problem Statement",
              some "Define the issue here", []⟩⟩,
          ⟨"n-10", ⟨250, 50⟩, ⟨"n-10", NodeType.CATEGORY, "People", some "", []⟩⟩,
          ⟨"n-11", ⟨250, 550⟩, ⟨"n-11", NodeType.CATEGORY, "Machines", some "", []⟩⟩,
          ⟨"spine_2_auto", ⟨1450, 300⟩, ⟨"spine_2_auto", NodeType.SPINE, "", none, []⟩⟩,
          ⟨"n-12", ⟨1300, 50⟩, ⟨"n-12", NodeType.CATEGORY, "Methods", some "", []⟩⟩],
         [mkSpineEdge "s1" "spine_tail" "spine_1",
          mkAutoRib 10 "n-10" "spine_1" true,
          mkAutoRib 11 "n-11" "spine_1" false,
          mkSpineExt 12 "spine_1" "spine_2_auto",
          mkSpineEnd 12 "spine_2_auto" "problem",
          mkAutoRib 12 "n-12" "spine_2_auto" true]⟩) ∧
    ((runCmds 10 docOneSpine [Cmd.add_node (some "People") none none,
        Cmd.add_node (some "Machines") none none,
        Cmd.add_node (some "Methods") none none]).1.edges.any
      (fun e => e.source == "spine_1" && e.target == "problem")) = false ∧
    (∀ (d : Doc) (l : List FNode) (sid : String) (p : Pos) (sl : Slot),
      findSlot d l = some (sid, p, sl) →
      ∃ l1 s l2, l = l1 ++ s :: l2 ∧ s.id = sid ∧
        (∀ q ∈ l1, hasTopRib d q.id = true ∧ hasBottomRib d q.id = true) ∧
        ((sl = Slot.top ∧ hasTopRib d s.id = false ∧ p = ⟨s.position.x - 150, 50⟩) ∨
         (sl = Slot.bottom ∧ hasTopRib d s.id = true ∧ hasBottomRib d s.id = false ∧
          p = ⟨s.position.x - 150, 550⟩))) :=
  ⟨by decide, by decide, by decide, by decide, fun d => findSlot_spec d⟩

/-- C3 witness: instantiating the general slot-search characterization on
the one-spine document shows its spine node's "above" slot is free. -/
theorem slot_fill_order_and_extension_witness :
    hasTopRib docOneSpine "spine_1" = false := by
  obtain ⟨l1, s, l2, -, hid, -, hcase⟩ :=
    slot_fill_order_and_extension.2.2.2.2 docOneSpine (spineList docOneSpine)
      "spine_1" ⟨250, 50⟩ Slot.top (by decide)
  rcases hcase with ⟨-, h, -⟩ | ⟨h, -⟩
  · rw [hid] at h
    exact h
  · exact absurd h (by decide)

/-! ## Generic lemmas for the invariant-preservation proof (C2) -/

theorem removeFirst_sublist {α : Type} (p : α → Bool) (l : List α) :
    (removeFirst p l).Sublist l := by
  induction l with
  | nil => exact List.Sublist.refl []
  | cons a as ih =>
    rw [removeFirst]
    split
    · exact List.sublist_cons_self a as
    · exact List.Sublist.cons₂ a ih

theorem mem_updateFirst {α : Type} (p : α → Bool) (g : α → α) (l : List α) (a : α)
    (h : a ∈ updateFirst p g l) : a ∈ l ∨ ∃ b ∈ l, p b = true ∧ a = g b := by
  induction l with
  | nil => simp [updateFirst] at h
  | cons b bs ih =>
    rw [updateFirst] at h
    by_cases hb : p b = true
    · rw [if_pos hb] at h
      rcases List.mem_cons.mp h with h1 | h1
      · exact Or.inr ⟨b, List.mem_cons_self b bs, hb, h1⟩
      · exact Or.inl (List.mem_cons_of_mem b h1)
    · rw [if_neg hb] at h
      rcases List.mem_cons.mp h with h1 | h1
      · exact Or.inl (h1 ▸ List.mem_cons_self b bs)
      · rcases ih h1 with h2 | ⟨c, hc, hpc, hac⟩
        · exact Or.inl (List.mem_cons_of_mem b h2)
        · exact Or.inr ⟨c, List.mem_cons_of_mem b hc, hpc, hac⟩

theorem map_updateFirst_eq {α β : Type} (p : α → Bool) (g : α → α) (f : α → β) (l : List α)
    (h : ∀ a ∈ l, p a = true → f (g a) = f a) :
    (updateFirst p g l).map f = l.map f := by
  induction l with
  | nil => rfl
  | cons b bs ih =>
    rw [updateFirst]
    split
    · rename_i hb
      simp [h b (List.mem_cons_self b bs) hb]
    · simp [ih (fun a ha hp => h a (List.mem_cons_of_mem b ha) hp)]

theorem filter_length_updateFirst {α : Type} (p : α → Bool) (g : α → α) (P : α → Bool)
    (l : List α) (h : ∀ a ∈ l, p a = true → P (g a) = P a) :
    ((updateFirst p g l).filter P).length = (l.filter P).length := by
  induction l with
  | nil => rfl
  | cons b bs ih =>
    rw [updateFirst]
    split
    · rename_i hb
      simp only [List.filter_cons, h b (List.mem_cons_self b bs) hb]
      split <;> simp
    · simp only [List.filter_cons]
      split <;> simp [ih (fun a ha hp => h a (List.mem_cons_of_mem b ha) hp)]

theorem insertByX_perm (a : FNode) (l : List FNode) :
    (insertByX a l).Perm (a :: l) := by
  induction l with
  | nil => exact List.Perm.refl _
  | cons b bs ih =>
    rw [insertByX]
    split
    · exact ((ih.cons b).trans (List.Perm.swap a b bs)).symm.symm
    · exact List.Perm.refl _

theorem sortByX_aux_perm (l acc : List FNode) :
    (l.foldl (fun acc a => insertByX a acc) acc).Perm (acc ++ l) := by
  induction l generalizing acc with
  | nil => simp
  | cons x xs ih =>
    rw [List.foldl_cons]
    refine (ih (insertByX x acc)).trans ?_
    refine (List.Perm.append_right xs (insertByX_perm x acc)).trans ?_
    exact List.perm_middle.symm

theorem mem_sortByX (a : FNode) (l : List FNode) : a ∈ sortByX l ↔ a ∈ l := by
  unfold sortByX
  constructor
  · intro h
    have := (sortByX_aux_perm l []).mem_iff.mp h
    simpa using this
  · intro h
    exact (sortByX_aux_perm l []).mem_iff.mpr (by simpa using h)

theorem mem_spineList (d : Doc) (s : FNode) :
    s ∈ spineList d ↔ s ∈ d.nodes ∧ s.data.type = NodeType.SPINE ∧ s.id ≠ "spine_tail" := by
  unfold spineList
  rw [mem_sortByX, List.mem_filter]
  simp [bne_iff_ne, and_assoc]

theorem findNode_append_left (ns ms : List FNode) (i : String)
    (h : (findNode ns i).isSome = true) :
    findNode (ns ++ ms) i = findNode ns i := by
  unfold findNode at h ⊢
  rw [List.find?_append]
  cases hf : List.find? (fun n => n.id == i) ns with
  | some n => rfl
  | none => rw [hf] at h; simp at h

theorem findNode_append_right (ns ms : List FNode) (i : String)
    (h : findNode ns i = none) :
    findNode (ns ++ ms) i = findNode ms i := by
  unfold findNode at h ⊢
  rw [List.find?_append, h]
  rfl

theorem findNode_isSome_of_mem (ns : List FNode) (n : FNode) (hn : n ∈ ns) :
    (findNode ns n.id).isSome = true := by
  unfold findNode
  rw [List.find?_isSome]
  exact ⟨n, hn, by simp⟩

theorem findNode_eq_none_iff (ns : List FNode) (i : String) :
    findNode ns i = none ↔ ∀ n ∈ ns, n.id ≠ i := by
  unfold findNode
  rw [List.find?_eq_none]
  simp

theorem findNode_self_of_nodup (ns : List FNode) (n : FNode)
    (hd : (ns.map (fun m => m.id)).Nodup) (hn : n ∈ ns) :
    findNode ns n.id = some n := by
  induction ns with
  | nil => simp at hn
  | cons b bs ih =>
    rcases List.mem_cons.mp hn with h1 | h1
    · subst h1
      unfold findNode
      simp [List.find?_cons_of_pos]
    · have hbne : b.id ≠ n.id := by
        intro he
        have : b.id ∈ bs.map (fun m => m.id) := he ▸ List.mem_map.mpr ⟨n, h1, rfl⟩
        exact (List.nodup_cons.mp hd).1 this
      unfold findNode
      rw [List.find?_cons_of_neg _ (by simp [hbne])]
      exact ih (List.nodup_cons.mp hd).2 h1

theorem not_id_mem_of_nodup_middle (pre post : List FNode) (a : FNode)
    (hd : (((pre ++ a :: post)).map (fun m => m.id)).Nodup) :
    (∀ m ∈ pre, m.id ≠ a.id) ∧ (∀ m ∈ post, m.id ≠ a.id) := by
  rw [List.map_append, List.map_cons] at hd
  have h1 := List.nodup_middle.mp hd
  have h2 := (List.nodup_cons.mp h1).1
  rw [List.mem_append] at h2
  push_neg at h2
  constructor
  · intro m hm he
    exact h2.1 (he ▸ List.mem_map.mpr ⟨m, hm, rfl⟩)
  · intro m hm he
    exact h2.2 (he ▸ List.mem_map.mpr ⟨m, hm, rfl⟩)

theorem hasId_iff_mem_map (ns : List FNode) (j : String) :
    (∃ m ∈ ns, m.id = j) ↔ j ∈ ns.map (fun x => x.id) :=
  Iff.symm List.mem_map

/-- The vertical coordinate of the first node carrying id `i` — the only
information about the node collection the slot-occupancy classification of
an edge depends on (besides the edge itself). -/
def lookupY (ns : List FNode) (i : String) : Option Int :=
  (findNode ns i).map (fun n => n.position.y)

theorem isTopRibEdge_congr (ns ns' : List FNode) (sid : String) (e : FEdge)
    (h : lookupY ns' e.source = lookupY ns e.source) :
    isTopRibEdge ns' sid e = isTopRibEdge ns sid e := by
  unfold isTopRibEdge
  unfold lookupY at h
  cases h1 : findNode ns e.source with
  | none =>
    rw [h1] at h
    cases h2 : findNode ns' e.source with
    | none => rfl
    | some m => rw [h2] at h; simp at h
  | some n =>
    rw [h1] at h
    cases h2 : findNode ns' e.source with
    | none => rw [h2] at h; simp at h
    | some m =>
      rw [h2] at h
      have hy : m.position.y = n.position.y := by simpa using h
      simp [hy]

theorem isBottomRibEdge_congr (ns ns' : List FNode) (sid : String) (e : FEdge)
    (h : lookupY ns' e.source = lookupY ns e.source) :
    isBottomRibEdge ns' sid e = isBottomRibEdge ns sid e := by
  unfold isBottomRibEdge
  unfold lookupY at h
  cases h1 : findNode ns e.source with
  | none =>
    rw [h1] at h
    cases h2 : findNode ns' e.source with
    | none => rfl
    | some m => rw [h2] at h; simp at h
  | some n =>
    rw [h1] at h
    cases h2 : findNode ns' e.source with
    | none => rw [h2] at h; simp at h
    | some m =>
      rw [h2] at h
      have hy : m.position.y = n.position.y := by simpa using h
      simp [hy]

theorem lookupY_updateFirst (ns : List FNode) (q : FNode → Bool) (g : FNode → FNode)
    (h : ∀ a ∈ ns, q a = true → (g a).id = a.id ∧ (g a).position.y = a.position.y) :
    ∀ j, lookupY (updateFirst q g ns) j = lookupY ns j := by
  induction ns with
  | nil => intro j; rfl
  | cons b bs ih =>
    intro j
    rw [updateFirst]
    split
    · rename_i hb
      have hgb := h b (List.mem_cons_self b bs) hb
      unfold lookupY findNode
      rw [List.find?_cons, List.find?_cons]
      have hsame : ((g b).id == j) = (b.id == j) := by rw [hgb.1]
      rw [hsame]
      cases hj : (b.id == j) with
      | true => simp [hgb.2]
      | false => rfl
    · unfold lookupY findNode
      rw [List.find?_cons, List.find?_cons]
      cases hj : (b.id == j) with
      | true => rfl
      | false => exact ih (fun a ha hq => h a (List.mem_cons_of_mem b ha) hq) j

theorem lookupY_append_left (ns ms : List FNode) (j : String)
    (h : (findNode ns j).isSome = true) :
    lookupY (ns ++ ms) j = lookupY ns j := by
  unfold lookupY
  rw [findNode_append_left ns ms j h]

/-- An in-place node rewrite that keeps each node's id, position and kind
preserves all invariants (covers `update_node`, `add_cause` and
`add_evidence` on node targets). -/
theorem inv_nodes_updateFirst (d : Doc) (q : FNode → Bool) (g : FNode → FNode)
    (hg : ∀ a, (g a).id = a.id ∧ (g a).position = a.position ∧ (g a).data.type = a.data.type)
    (hinv : Inv d) : Inv ⟨updateFirst q g d.nodes, d.edges⟩ := by
  rcases hinv with ⟨⟨hclosed, hprob, hrib⟩, hnodup, hspine⟩
  have hids : (updateFirst q g d.nodes).map (fun n => n.id) = d.nodes.map (fun n => n.id) :=
    map_updateFirst_eq q g _ d.nodes (fun a _ _ => (hg a).1)
  have hY : ∀ j, lookupY (updateFirst q g d.nodes) j = lookupY d.nodes j :=
    lookupY_updateFirst d.nodes q g
      (fun a _ _ => ⟨(hg a).1, by rw [(hg a).2.1]⟩)
  have hHasId : ∀ j, (∃ m ∈ updateFirst q g d.nodes, m.id = j) ↔ (∃ m ∈ d.nodes, m.id = j) := by
    intro j
    rw [hasId_iff_mem_map, hasId_iff_mem_map, hids]
  refine ⟨⟨?_, ?_, ?_⟩, ?_, ?_⟩
  · intro e he
    exact ⟨(hHasId e.source).mpr (hclosed e he).1, (hHasId e.target).mpr (hclosed e he).2⟩
  · unfold problemCount at hprob ⊢
    rw [filter_length_updateFirst q g _ d.nodes
      (fun a _ _ => by simp only [(hg a).2.2])]
    exact hprob
  · intro s0 hs0 hty
    have hcnt : aboveRibCount ⟨updateFirst q g d.nodes, d.edges⟩ s0.id
        = aboveRibCount d s0.id ∧
        belowRibCount ⟨updateFirst q g d.nodes, d.edges⟩ s0.id
        = belowRibCount d s0.id := by
      unfold aboveRibCount belowRibCount
      constructor
      · congr 1
        exact List.filter_congr (fun e _ => isTopRibEdge_congr d.nodes _ s0.id e (hY e.source))
      · congr 1
        exact List.filter_congr (fun e _ => isBottomRibEdge_congr d.nodes _ s0.id e (hY e.source))
    rcases mem_updateFirst q g d.nodes s0 hs0 with h1 | ⟨b, hb, -, hbeq⟩
    · rw [hcnt.1, hcnt.2]
      exact hrib s0 h1 hty
    · rw [hcnt.1, hcnt.2, hbeq, (hg b).1]
      exact hrib b hb (by rw [← (hg b).2.2, ← hbeq]; exact hty)
  · rw [hids]
    exact hnodup
  · intro n hn hty
    rcases mem_updateFirst q g d.nodes n hn with h1 | ⟨b, hb, -, hbeq⟩
    · exact hspine n h1 hty
    · have hb2 := hspine b hb (by rw [← (hg b).2.2, ← hbeq]; exact hty)
      rw [hbeq, (hg b).1, (hg b).2.1]
      exact hb2

/-- An in-place edge rewrite that keeps each edge's source and target
preserves all invariants (covers `add_cause` and `add_evidence` on edge
targets, and `update_edge`-style label merges). -/
theorem inv_edges_updateFirst (d : Doc) (q : FEdge → Bool) (g : FEdge → FEdge)
    (hg : ∀ a, (g a).source = a.source ∧ (g a).target = a.target)
    (hinv : Inv d) : Inv ⟨d.nodes, updateFirst q g d.edges⟩ := by
  rcases hinv with ⟨⟨hclosed, hprob, hrib⟩, hnodup, hspine⟩
  refine ⟨⟨?_, hprob, ?_⟩, hnodup, hspine⟩
  · intro e he
    rcases mem_updateFirst q g d.edges e he with h1 | ⟨b, hb, -, hbeq⟩
    · exact hclosed e h1
    · rw [hbeq, (hg b).1, (hg b).2]
      exact hclosed b hb
  · intro s0 hs0 hty
    have htopE : ∀ a ∈ d.edges, q a = true →
        isTopRibEdge d.nodes s0.id (g a) = isTopRibEdge d.nodes s0.id a := by
      intro a _ _
      unfold isTopRibEdge
      rw [(hg a).1, (hg a).2]
    have hbotE : ∀ a ∈ d.edges, q a = true →
        isBottomRibEdge d.nodes s0.id (g a) = isBottomRibEdge d.nodes s0.id a := by
      intro a _ _
      unfold isBottomRibEdge
      rw [(hg a).1, (hg a).2]
    have h1 : aboveRibCount ⟨d.nodes, updateFirst q g d.edges⟩ s0.id
        = aboveRibCount d s0.id :=
      filter_length_updateFirst q g _ d.edges htopE
    have h2 : belowRibCount ⟨d.nodes, updateFirst q g d.edges⟩ s0.id
        = belowRibCount d s0.id :=
      filter_length_updateFirst q g _ d.edges hbotE
    rw [h1, h2]
    exact hrib s0 hs0 hty

theorem findNode_isSome_of_ids_mem (ns : List FNode) (j : String)
    (h : j ∈ ns.map (fun n => n.id)) : (findNode ns j).isSome = true := by
  obtain ⟨m, hm, hid⟩ := List.mem_map.mp h
  exact hid ▸ findNode_isSome_of_mem ns m hm

theorem aboveRibCount_zero_of_free (d : Doc) (sid : String)
    (h : hasTopRib d sid = false) : aboveRibCount d sid = 0 := by
  unfold hasTopRib at h
  unfold aboveRibCount
  rw [List.length_eq_zero, List.filter_eq_nil_iff]
  exact List.any_eq_false.mp h

theorem belowRibCount_zero_of_free (d : Doc) (sid : String)
    (h : hasBottomRib d sid = false) : belowRibCount d sid = 0 := by
  unfold hasBottomRib at h
  unfold belowRibCount
  rw [List.length_eq_zero, List.filter_eq_nil_iff]
  exact List.any_eq_false.mp h

theorem problem_find_isSome (d : Doc) (hp : problemCount d = 1) :
    ∃ p, d.nodes.find? (fun n => n.data.type == NodeType.PROBLEM) = some p := by
  have hs : (d.nodes.find? (fun n => n.data.type == NodeType.PROBLEM)).isSome = true := by
    rw [List.find?_isSome]
    unfold problemCount at hp
    rcases hfe : d.nodes.filter (fun n => n.data.type == NodeType.PROBLEM) with _ | ⟨x, xs⟩
    · rw [hfe] at hp
      simp at hp
    · have hx : x ∈ d.nodes.filter (fun n => n.data.type == NodeType.PROBLEM) :=
        hfe ▸ List.mem_cons_self x xs
      have hx2 := List.mem_filter.mp hx
      exact ⟨x, hx2.1, hx2.2⟩
  exact Option.isSome_iff_exists.mp hs

/-- Appending one fresh CATEGORY node together with its rib edge onto a
spine node whose corresponding slot was free preserves all invariants. -/
theorem inv_append_node_rib (d : Doc) (sid : String) (NN : FNode) (rib : FEdge)
    (hfresh : ∀ n ∈ d.nodes, n.id ≠ NN.id)
    (hcat : NN.data.type = NodeType.CATEGORY)
    (hsrc : rib.source = NN.id) (htgt : rib.target = sid)
    (hsid : ∃ sN ∈ d.nodes, sN.id = sid)
    (hy : (NN.position.y = 50 ∧ aboveRibCount d sid = 0) ∨
          (NN.position.y = 550 ∧ belowRibCount d sid = 0))
    (hinv : Inv d) :
    Inv ⟨d.nodes ++ [NN], d.edges ++ [rib]⟩ := by
  rcases hinv with ⟨⟨hclosed, hprob, hrib⟩, hnodup, hspine⟩
  have hfind0 : findNode d.nodes NN.id = none :=
    (findNode_eq_none_iff d.nodes NN.id).mpr hfresh
  have hfindNN : findNode (d.nodes ++ [NN]) NN.id = some NN := by
    rw [findNode_append_right d.nodes [NN] NN.id hfind0]
    unfold findNode
    rw [List.find?_cons]
    simp
  have hYpres : ∀ e ∈ d.edges,
      lookupY (d.nodes ++ [NN]) e.source = lookupY d.nodes e.source := by
    intro e he
    apply lookupY_append_left
    apply findNode_isSome_of_ids_mem
    rw [← hasId_iff_mem_map]
    exact (hclosed e he).1
  have hfiltTop : ∀ j, (d.edges.filter (isTopRibEdge (d.nodes ++ [NN]) j)).length
      = aboveRibCount d j := by
    intro j
    unfold aboveRibCount
    congr 1
    exact List.filter_congr (fun e he => isTopRibEdge_congr d.nodes _ j e (hYpres e he))
  have hfiltBot : ∀ j, (d.edges.filter (isBottomRibEdge (d.nodes ++ [NN]) j)).length
      = belowRibCount d j := by
    intro j
    unfold belowRibCount
    congr 1
    exact List.filter_congr (fun e he => isBottomRibEdge_congr d.nodes _ j e (hYpres e he))
  refine ⟨⟨?_, ?_, ?_⟩, ?_, ?_⟩
  · intro e he
    rcases List.mem_append.mp he with h1 | h1
    · obtain ⟨hes, het⟩ := hclosed e h1
      exact ⟨⟨hes.choose, List.mem_append_left _ hes.choose_spec.1, hes.choose_spec.2⟩,
        ⟨het.choose, List.mem_append_left _ het.choose_spec.1, het.choose_spec.2⟩⟩
    · have heq : e = rib := by simpa using h1
      subst heq
      obtain ⟨sN, hsN, hsNid⟩ := hsid
      exact ⟨⟨NN, List.mem_append_right _ (List.mem_cons_self NN []), hsrc.symm⟩,
        ⟨sN, List.mem_append_left _ hsN, htgt ▸ hsNid⟩⟩
  · unfold problemCount at hprob ⊢
    rw [List.filter_append, List.length_append]
    have hne : (List.filter (fun n => n.data.type == NodeType.PROBLEM) [NN]).length = 0 := by
      have hb : (NN.data.type == NodeType.PROBLEM) = false := by
        rw [hcat]
        rfl
      simp [List.filter_cons, hb]
    rw [hne, hprob]
  · intro s0 hs0 hty
    rcases List.mem_append.mp hs0 with h1 | h1
    · -- an old spine node
      have hcounts :
          aboveRibCount ⟨d.nodes ++ [NN], d.edges ++ [rib]⟩ s0.id
            = aboveRibCount d s0.id
              + (List.filter (isTopRibEdge (d.nodes ++ [NN]) s0.id) [rib]).length ∧
          belowRibCount ⟨d.nodes ++ [NN], d.edges ++ [rib]⟩ s0.id
            = belowRibCount d s0.id
              + (List.filter (isBottomRibEdge (d.nodes ++ [NN]) s0.id) [rib]).length := by
        unfold aboveRibCount belowRibCount
        rw [List.filter_append, List.length_append, List.filter_append, List.length_append]
        rw [hfiltTop s0.id, hfiltBot s0.id]
        exact ⟨rfl, rfl⟩
      by_cases hc : sid = s0.id
      · subst hc
        rcases hy with ⟨hy50, hcnt0⟩ | ⟨hy550, hcnt0⟩
        · have hribtop : (List.filter (isTopRibEdge (d.nodes ++ [NN]) s0.id) [rib]).length ≤ 1 := by
            rw [List.filter_cons]
            split <;> simp
          have hribbot : (List.filter (isBottomRibEdge (d.nodes ++ [NN]) s0.id) [rib]).length = 0 := by
            have hfb : isBottomRibEdge (d.nodes ++ [NN]) s0.id rib = false := by
              unfold isBottomRibEdge
              rw [hsrc, hfindNN]
              simp [hy50]
            simp [List.filter_cons, hfb]
          rw [hcounts.1, hcounts.2, hcnt0, hribbot]
          exact ⟨by omega, by have := (hrib s0 h1 hty).2; omega⟩
        · have hribtop : (List.filter (isTopRibEdge (d.nodes ++ [NN]) s0.id) [rib]).length = 0 := by
            have hft : isTopRibEdge (d.nodes ++ [NN]) s0.id rib = false := by
              unfold isTopRibEdge
              rw [hsrc, hfindNN]
              simp [hy550]
            simp [List.filter_cons, hft]
          have hribbot : (List.filter (isBottomRibEdge (d.nodes ++ [NN]) s0.id) [rib]).length ≤ 1 := by
            rw [List.filter_cons]
            split <;> simp
          rw [hcounts.1, hcounts.2, hcnt0, hribtop]
          exact ⟨by have := (hrib s0 h1 hty).1; omega, by omega⟩
      · have hne : (rib.target == s0.id) = false := by
          rw [htgt]
          exact beq_eq_false_iff_ne.mpr hc
        have h0t : (List.filter (isTopRibEdge (d.nodes ++ [NN]) s0.id) [rib]).length = 0 := by
          have hft : isTopRibEdge (d.nodes ++ [NN]) s0.id rib = false := by
            unfold isTopRibEdge
            rw [hne]
            rfl
          simp [List.filter_cons, hft]
        have h0b : (List.filter (isBottomRibEdge (d.nodes ++ [NN]) s0.id) [rib]).length = 0 := by
          have hfb : isBottomRibEdge (d.nodes ++ [NN]) s0.id rib = false := by
            unfold isBottomRibEdge
            rw [hne]
            rfl
          simp [List.filter_cons, hfb]
        rw [hcounts.1, hcounts.2, h0t, h0b]
        have := hrib s0 h1 hty
        omega
    · have heq : s0 = NN := by simpa using h1
      rw [heq, hcat] at hty
      cases hty
  · rw [List.map_append, List.nodup_append]
    refine ⟨hnodup, List.nodup_singleton _, ?_⟩
    intro a ha hb
    have : a = NN.id := by simpa using hb
    subst this
    obtain ⟨m, hm, hmi⟩ := List.mem_map.mp ha
    exact hfresh m hm hmi
  · intro n hn hty
    rcases List.mem_append.mp hn with h1 | h1
    · exact hspine n h1 hty
    · have heq : n = NN := by simpa using h1
      rw [heq, hcat] at hty
      cases hty

theorem lookupY_replace_mid (pre post : List FNode) (p pm : FNode)
    (hid : pm.id = p.id) (hy : pm.position.y = p.position.y) (j : String) :
    lookupY (pre ++ pm :: post) j = lookupY (pre ++ p :: post) j := by
  unfold lookupY findNode
  rw [List.find?_append, List.find?_append]
  cases hpre : List.find? (fun n => n.id == j) pre with
  | some m => rfl
  | none =>
    simp only [Option.none_or]
    rw [List.find?_cons, List.find?_cons]
    have hcond : (pm.id == j) = (p.id == j) := by rw [hid]
    rw [hcond]
    cases hc : (p.id == j) with
    | true => simp [hy]
    | false => rfl

theorem length_filter_middle {α : Type} (P : α → Bool) (A B : List α) (x : α) :
    ((A ++ x :: B).filter P).length
      = (A.filter P).length + (if P x then 1 else 0) + (B.filter P).length := by
  rw [List.filter_append, List.filter_cons, List.length_append]
  split <;> simp <;> omega

/-- The PROBLEM node after the extension repositioning (x shifted right by
`SPACING`, y unchanged). -/
def shiftedProblem (p : FNode) : FNode :=
  { p with position := ⟨p.position.x + 350, p.position.y⟩ }

/-- The spine node created by the extension, on the baseline `y = 300`. -/
def autoSpineNode (d : Doc) (p : FNode) : FNode :=
  ⟨spineAutoId d, ⟨p.position.x - 250 + 350, 300⟩,
   ⟨spineAutoId d, NodeType.SPINE, "", none, []⟩⟩

/-- The unfolded form of `extendSpine`. -/
theorem extendSpine_eq (t : Nat) (d : Doc) (p : FNode) :
    extendSpine t d p =
      ⟨updateFirst (fun n => n.id == p.id) (fun _ => shiftedProblem p) d.nodes
        ++ [autoSpineNode d p],
       removeFirst (fun e => e.target == p.id)
         (match (spineList d).getLast? with
          | some lastSpine => d.edges ++ [mkSpineExt t lastSpine.id (spineAutoId d)]
          | none => d.edges)
        ++ [mkSpineEnd t (spineAutoId d) p.id]⟩ := rfl

/-- The spine-extension step preserves all invariants, and the fresh spine
node starts with both slots free. -/
theorem inv_extendSpine (t : Nat) (d : Doc) (p : FNode)
    (hp : d.nodes.find? (fun n => n.data.type == NodeType.PROBLEM) = some p)
    (hfsp : findNode d.nodes (spineAutoId d) = none)
    (hinv : Inv d) :
    Inv (extendSpine t d p) ∧
    (extendSpine t d p).nodes.map (fun n => n.id)
      = d.nodes.map (fun n => n.id) ++ [spineAutoId d] ∧
    aboveRibCount (extendSpine t d p) (spineAutoId d) = 0 ∧
    belowRibCount (extendSpine t d p) (spineAutoId d) = 0 ∧
    (∃ sN ∈ (extendSpine t d p).nodes, sN.id = spineAutoId d) := by
  rcases hinv with ⟨⟨hclosed, hprob, hrib⟩, hnodup, hspine⟩
  have hpmem : p ∈ d.nodes := List.mem_of_find?_eq_some hp
  have hpty : p.data.type = NodeType.PROBLEM := by
    have h2 := List.find?_some hp
    simp at h2
    exact h2
  have hfspAll : ∀ n ∈ d.nodes, n.id ≠ spineAutoId d :=
    (findNode_eq_none_iff d.nodes (spineAutoId d)).mp hfsp
  obtain ⟨pre, post, hdn⟩ := List.append_of_mem hpmem
  have hmid := not_id_mem_of_nodup_middle pre post p (by rw [← hdn]; exact hnodup)
  have hn1 : updateFirst (fun n => n.id == p.id) (fun _ => shiftedProblem p) d.nodes
      = pre ++ shiftedProblem p :: post := by
    rw [hdn]
    exact updateFirst_append _ _ pre post p
      (fun b hb => beq_eq_false_iff_ne.mpr (hmid.1 b hb)) (by simp)
  rw [extendSpine_eq, hn1]
  have hE1sub : ∀ e ∈ (match (spineList d).getLast? with
        | some lastSpine => d.edges ++ [mkSpineExt t lastSpine.id (spineAutoId d)]
        | none => d.edges),
      e ∈ d.edges ∨
        (e.target = spineAutoId d ∧
         ∃ ls ∈ d.nodes, ls.data.type = NodeType.SPINE ∧ e.source = ls.id) := by
    intro e he
    cases hlast : (spineList d).getLast? with
    | none =>
      rw [hlast] at he
      exact Or.inl he
    | some ls =>
      rw [hlast] at he
      rcases List.mem_append.mp he with h1 | h1
      · exact Or.inl h1
      · have heq : e = mkSpineExt t ls.id (spineAutoId d) := by simpa using h1
        have hlsmem := (mem_spineList d ls).mp (List.mem_of_getLast?_eq_some hlast)
        exact Or.inr ⟨by rw [heq]; rfl, ls, hlsmem.1, hlsmem.2.1, by rw [heq]; rfl⟩
  have hE1filter : ∀ (P : FEdge → Bool), (∀ e, e.target = spineAutoId d → P e = false) →
      ((match (spineList d).getLast? with
        | some lastSpine => d.edges ++ [mkSpineExt t lastSpine.id (spineAutoId d)]
        | none => d.edges).filter P).length = (d.edges.filter P).length := by
    intro P hP
    cases hlast : (spineList d).getLast? with
    | none => rfl
    | some ls =>
      rw [List.filter_append, List.length_append]
      have hPs : P (mkSpineExt t ls.id (spineAutoId d)) = false := hP _ rfl
      simp [List.filter_cons, hPs]
  generalize hgen : (match (spineList d).getLast? with
      | some lastSpine => d.edges ++ [mkSpineExt t lastSpine.id (spineAutoId d)]
      | none => d.edges) = E1 at hE1sub hE1filter ⊢
  have hE2sub : ∀ e ∈ removeFirst (fun e => e.target == p.id) E1, e ∈ E1 :=
    fun e he => (removeFirst_sublist _ E1).subset he
  have hids1 : (pre ++ shiftedProblem p :: post).map (fun n => n.id)
      = d.nodes.map (fun n => n.id) := by
    rw [hdn]
    simp only [List.map_append, List.map_cons]
    rfl
  have hY1 : ∀ j, lookupY (pre ++ shiftedProblem p :: post) j = lookupY d.nodes j := by
    intro j
    rw [hdn]
    exact lookupY_replace_mid pre post p (shiftedProblem p) rfl rfl j
  have hids2 : ((pre ++ shiftedProblem p :: post) ++ [autoSpineNode d p]).map (fun n => n.id)
      = d.nodes.map (fun n => n.id) ++ [spineAutoId d] := by
    rw [List.map_append, hids1]
    rfl
  have hY2 : ∀ j, j ∈ d.nodes.map (fun n => n.id) →
      lookupY ((pre ++ shiftedProblem p :: post) ++ [autoSpineNode d p]) j
        = lookupY d.nodes j := by
    intro j hj
    rw [lookupY_append_left _ _ j (findNode_isSome_of_ids_mem _ j (hids1 ▸ hj))]
    exact hY1 j
  have hHas : ∀ j, j ∈ d.nodes.map (fun n => n.id) →
      ∃ m ∈ (pre ++ shiftedProblem p :: post) ++ [autoSpineNode d p], m.id = j := by
    intro j hj
    rw [hasId_iff_mem_map, hids2]
    exact List.mem_append_left _ hj
  have hAutoMem : autoSpineNode d p ∈ (pre ++ shiftedProblem p :: post) ++ [autoSpineNode d p] :=
    List.mem_append_right _ (List.mem_cons_self _ [])
  generalize hNL : (pre ++ shiftedProblem p :: post) ++ [autoSpineNode d p] = NL
    at hids2 hY2 hHas hAutoMem ⊢
  have hsendne : ((mkSpineEnd t (spineAutoId d) p.id).target == spineAutoId d) = false := by
    apply beq_eq_false_iff_ne.mpr
    show p.id ≠ spineAutoId d
    exact hfspAll p hpmem
  -- both slots of the fresh spine node are free
  have hfree : ∀ e ∈ removeFirst (fun e => e.target == p.id) E1
        ++ [mkSpineEnd t (spineAutoId d) p.id],
      isTopRibEdge NL
        (spineAutoId d) e = false ∧
      isBottomRibEdge NL
        (spineAutoId d) e = false := by
    intro e he
    rcases List.mem_append.mp he with h1 | h1
    · rcases hE1sub e (hE2sub e h1) with h2 | ⟨htgt, ls, hls, hlsty, hsrc⟩
      · have htgtne : (e.target == spineAutoId d) = false := by
          apply beq_eq_false_iff_ne.mpr
          obtain ⟨n, hn, hni⟩ := (hclosed e h2).2
          exact hni ▸ hfspAll n hn
        constructor
        · unfold isTopRibEdge
          rw [htgtne]
          rfl
        · unfold isBottomRibEdge
          rw [htgtne]
          rfl
      · have hls300 : lookupY NL ls.id
            = some 300 := by
          rw [hY2 ls.id (List.mem_map.mpr ⟨ls, hls, rfl⟩)]
          unfold lookupY
          rw [findNode_self_of_nodup d.nodes ls hnodup hls]
          simp [(hspine ls hls hlsty).2]
        obtain ⟨m, hm, hmy⟩ := Option.map_eq_some'.mp hls300
        constructor
        · unfold isTopRibEdge
          rw [hsrc, hm]
          simp [hmy]
        · unfold isBottomRibEdge
          rw [hsrc, hm]
          simp [hmy]
    · have heq : e = mkSpineEnd t (spineAutoId d) p.id := by simpa using h1
      subst heq
      constructor
      · unfold isTopRibEdge
        rw [hsendne]
        rfl
      · unfold isBottomRibEdge
        rw [hsendne]
        rfl
  have hAuto0 : aboveRibCount ⟨NL,
        removeFirst (fun e => e.target == p.id) E1 ++ [mkSpineEnd t (spineAutoId d) p.id]⟩
        (spineAutoId d) = 0 ∧
      belowRibCount ⟨NL,
        removeFirst (fun e => e.target == p.id) E1 ++ [mkSpineEnd t (spineAutoId d) p.id]⟩
        (spineAutoId d) = 0 := by
    constructor
    · unfold aboveRibCount
      rw [List.length_eq_zero, List.filter_eq_nil_iff]
      intro e he
      rw [(hfree e he).1]
      simp
    · unfold belowRibCount
      rw [List.length_eq_zero, List.filter_eq_nil_iff]
      intro e he
      rw [(hfree e he).2]
      simp
  refine ⟨⟨⟨?_, ?_, ?_⟩, ?_, ?_⟩, hids2, hAuto0.1, hAuto0.2, ⟨autoSpineNode d p, hAutoMem, rfl⟩⟩
  · -- edges closed
    intro e he
    rcases List.mem_append.mp he with h1 | h1
    · rcases hE1sub e (hE2sub e h1) with h2 | ⟨htgt, ls, hls, hlsty, hsrc⟩
      · obtain ⟨hes, het⟩ := hclosed e h2
        obtain ⟨n1, hn1m, hn1i⟩ := hes
        obtain ⟨n2, hn2m, hn2i⟩ := het
        exact ⟨hHas e.source (hn1i ▸ List.mem_map.mpr ⟨n1, hn1m, rfl⟩),
               hHas e.target (hn2i ▸ List.mem_map.mpr ⟨n2, hn2m, rfl⟩)⟩
      · refine ⟨hHas e.source (hsrc ▸ List.mem_map.mpr ⟨ls, hls, rfl⟩), ?_⟩
        exact ⟨autoSpineNode d p, hAutoMem, htgt.symm⟩
    · have heq : e = mkSpineEnd t (spineAutoId d) p.id := by simpa using h1
      subst heq
      refine ⟨⟨autoSpineNode d p, hAutoMem, rfl⟩, ?_⟩
      exact hHas p.id (List.mem_map.mpr ⟨p, hpmem, rfl⟩)
  · -- exactly one PROBLEM node
    unfold problemCount at hprob ⊢
    show (List.filter (fun n => n.data.type == NodeType.PROBLEM) NL).length = 1
    rw [← hNL]
    rw [List.filter_append, List.length_append]
    have hauto : (List.filter (fun n => n.data.type == NodeType.PROBLEM)
        [autoSpineNode d p]).length = 0 := by
      simp [List.filter_cons, autoSpineNode]
    rw [hauto, length_filter_middle]
    rw [hdn, length_filter_middle] at hprob
    have hsame : ((shiftedProblem p).data.type == NodeType.PROBLEM)
        = (p.data.type == NodeType.PROBLEM) := rfl
    rw [hsame]
    omega
  · -- rib bound
    intro s0 hs0 hty
    rw [show ({ nodes := NL, edges := removeFirst (fun e => e.target == p.id) E1
        ++ [mkSpineEnd t (spineAutoId d) p.id] } : Doc).nodes = NL from rfl, ← hNL] at hs0
    rcases List.mem_append.mp hs0 with h1 | h1
    · have hs0old : s0 ∈ d.nodes ∨ s0 = shiftedProblem p := by
        rcases List.mem_append.mp h1 with h2 | h2
        · exact Or.inl (hdn ▸ List.mem_append_left _ h2)
        · rcases List.mem_cons.mp h2 with h3 | h3
          · exact Or.inr h3
          · exact Or.inl (hdn ▸ List.mem_append_right _ (List.mem_cons_of_mem p h3))
      rcases hs0old with hs0d | hs0p
      · -- an old spine node keeps its bound
        have hs0ne : s0.id ≠ spineAutoId d := hfspAll s0 hs0d
        have hsendP : ((mkSpineEnd t (spineAutoId d) p.id).target == s0.id) = false := by
          apply beq_eq_false_iff_ne.mpr
          show p.id ≠ s0.id
          intro hpe
          have : p = s0 := List.inj_on_of_nodup_map hnodup hpmem hs0d hpe
          rw [this, hty] at hpty
          cases hpty
        have hcongr : ∀ e ∈ d.edges,
            isTopRibEdge NL s0.id e
              = isTopRibEdge d.nodes s0.id e ∧
            isBottomRibEdge NL s0.id e
              = isBottomRibEdge d.nodes s0.id e := by
          intro e he
          have hsome : e.source ∈ d.nodes.map (fun n => n.id) := by
            obtain ⟨n, hn, hni⟩ := (hclosed e he).1
            exact hni ▸ List.mem_map.mpr ⟨n, hn, rfl⟩
          exact ⟨isTopRibEdge_congr _ _ s0.id e (hY2 e.source hsome),
                 isBottomRibEdge_congr _ _ s0.id e (hY2 e.source hsome)⟩
        constructor
        · show (List.filter (isTopRibEdge NL s0.id)
              (removeFirst (fun e => e.target == p.id) E1
                ++ [mkSpineEnd t (spineAutoId d) p.id])).length ≤ 1
          have hP : ∀ e, e.target = spineAutoId d →
              isTopRibEdge NL s0.id e
                = false := by
            intro e hetgt
            unfold isTopRibEdge
            have hne2 : (e.target == s0.id) = false := by
              apply beq_eq_false_iff_ne.mpr
              rw [hetgt]
              exact Ne.symm hs0ne
            rw [hne2]
            rfl
          have hsend0 : (List.filter (isTopRibEdge NL s0.id) [mkSpineEnd t (spineAutoId d) p.id]).length = 0 := by
            have hf : isTopRibEdge NL
                s0.id (mkSpineEnd t (spineAutoId d) p.id) = false := by
              unfold isTopRibEdge
              rw [hsendP]
              rfl
            simp [List.filter_cons, hf]
          rw [List.filter_append, List.length_append, hsend0]
          have h2 : ((removeFirst (fun e => e.target == p.id) E1).filter
              (isTopRibEdge NL s0.id)).length
              ≤ (E1.filter (isTopRibEdge NL s0.id)).length :=
            (List.Sublist.filter _ (removeFirst_sublist _ E1)).length_le
          rw [hE1filter _ hP] at h2
          have hdfilter : (d.edges.filter (isTopRibEdge NL s0.id)).length = aboveRibCount d s0.id := by
            unfold aboveRibCount
            congr 1
            exact List.filter_congr (fun e he => (hcongr e he).1)
          rw [hdfilter] at h2
          have hd1 := (hrib s0 hs0d hty).1
          omega
        · show (List.filter (isBottomRibEdge NL s0.id)
              (removeFirst (fun e => e.target == p.id) E1
                ++ [mkSpineEnd t (spineAutoId d) p.id])).length ≤ 1
          have hP : ∀ e, e.target = spineAutoId d →
              isBottomRibEdge NL s0.id e
                = false := by
            intro e hetgt
            unfold isBottomRibEdge
            have hne2 : (e.target == s0.id) = false := by
              apply beq_eq_false_iff_ne.mpr
              rw [hetgt]
              exact Ne.symm hs0ne
            rw [hne2]
            rfl
          have hsend0 : (List.filter (isBottomRibEdge NL s0.id) [mkSpineEnd t (spineAutoId d) p.id]).length = 0 := by
            have hf : isBottomRibEdge NL
                s0.id (mkSpineEnd t (spineAutoId d) p.id) = false := by
              unfold isBottomRibEdge
              rw [hsendP]
              rfl
            simp [List.filter_cons, hf]
          rw [List.filter_append, List.length_append, hsend0]
          have h2 : ((removeFirst (fun e => e.target == p.id) E1).filter
              (isBottomRibEdge NL s0.id)).length
              ≤ (E1.filter (isBottomRibEdge NL s0.id)).length :=
            (List.Sublist.filter _ (removeFirst_sublist _ E1)).length_le
          rw [hE1filter _ hP] at h2
          have hdfilter : (d.edges.filter (isBottomRibEdge NL s0.id)).length = belowRibCount d s0.id := by
            unfold belowRibCount
            congr 1
            exact List.filter_congr (fun e he => (hcongr e he).2)
          rw [hdfilter] at h2
          have hd1 := (hrib s0 hs0d hty).2
          omega
      · rw [hs0p] at hty
        have : p.data.type = NodeType.SPINE := hty
        rw [hpty] at this
        cases this
    · have heq : s0 = autoSpineNode d p := by simpa using h1
      have hsid : s0.id = spineAutoId d := by rw [heq]; rfl
      rw [hsid]
      constructor
      · rw [hAuto0.1]
        omega
      · rw [hAuto0.2]
        omega
  · -- distinct ids
    rw [hids2, List.nodup_append]
    refine ⟨hnodup, List.nodup_singleton _, ?_⟩
    intro a ha hb
    have haeq : a = spineAutoId d := by simpa using hb
    subst haeq
    obtain ⟨m, hm, hmi⟩ := List.mem_map.mp ha
    exact hfspAll m hm hmi
  · -- spine nodes: nonempty id, on the baseline
    intro n hn hty
    rw [show ({ nodes := NL, edges := removeFirst (fun e => e.target == p.id) E1
        ++ [mkSpineEnd t (spineAutoId d) p.id] } : Doc).nodes = NL from rfl, ← hNL] at hn
    rcases List.mem_append.mp hn with h1 | h1
    · rcases List.mem_append.mp h1 with h2 | h2
      · exact hspine n (hdn ▸ List.mem_append_left _ h2) hty
      · rcases List.mem_cons.mp h2 with h3 | h3
        · rw [h3] at hty
          have : p.data.type = NodeType.SPINE := hty
          rw [hpty] at this
          cases this
        · exact hspine n (hdn ▸ List.mem_append_right _ (List.mem_cons_of_mem p h3)) hty
    · have heq : n = autoSpineNode d p := by simpa using h1
      rw [heq]
      exact ⟨spineAutoId_ne_empty d, rfl⟩

/-- A `connect_nodes` whose endpoints both exist and whose target is not a
spine node preserves all invariants. -/
theorem inv_connect (t : Nat) (s tg : String) (lab : Option String) (d : Doc)
    (hs : ∃ n ∈ d.nodes, n.id = s) (htg : ∃ n ∈ d.nodes, n.id = tg)
    (hnospine : ∀ n ∈ d.nodes, n.id = tg → n.data.type ≠ NodeType.SPINE)
    (hinv : Inv d) :
    Inv ⟨d.nodes, addEdgeRF (connectEdge t s tg lab) d.edges⟩ := by
  unfold addEdgeRF
  split
  · exact hinv
  · split
    · exact hinv
    · rcases hinv with ⟨⟨hclosed, hprob, hrib⟩, hnodup, hspine⟩
      refine ⟨⟨?_, hprob, ?_⟩, hnodup, hspine⟩
      · intro e he
        rcases List.mem_append.mp he with h1 | h1
        · exact hclosed e h1
        · have he2 : e = connectEdge t s tg lab := by simpa using h1
          subst he2
          exact ⟨hs, htg⟩
      · intro s0 hs0 hty
        have hne : ((connectEdge t s tg lab).target == s0.id) = false := by
          apply beq_eq_false_iff_ne.mpr
          show tg ≠ s0.id
          intro h
          exact hnospine s0 hs0 h.symm hty
        have htopF : isTopRibEdge d.nodes s0.id (connectEdge t s tg lab) = false := by
          unfold isTopRibEdge
          rw [hne]
          rfl
        have hbotF : isBottomRibEdge d.nodes s0.id (connectEdge t s tg lab) = false := by
          unfold isBottomRibEdge
          rw [hne]
          rfl
        have h1 : aboveRibCount ⟨d.nodes, d.edges ++ [connectEdge t s tg lab]⟩ s0.id
            = aboveRibCount d s0.id := by
          unfold aboveRibCount
          rw [List.filter_append]
          simp [htopF]
        have h2 : belowRibCount ⟨d.nodes, d.edges ++ [connectEdge t s tg lab]⟩ s0.id
            = belowRibCount d s0.id := by
          unfold belowRibCount
          rw [List.filter_append]
          simp [hbotF]
        rw [h1, h2]
        exact hrib s0 hs0 hty

/-- A valid (non-suppressed, fresh-id, non-PROBLEM-titled) `add_node`
preserves all invariants, whether it fills a free slot or extends the
spine. -/
theorem inv_add_node (t : Nat) (title description desiredId : Option String) (d : Doc)
    (hok : okCmd t d (Cmd.add_node title description desiredId)) (hinv : Inv d) :
    Inv (addNodeFishbone t title description desiredId d).2 := by
  obtain ⟨hnp, hdisj⟩ := hok
  by_cases hsup : duplicateSuppressed d desiredId = true
  · unfold addNodeFishbone
    rw [if_pos hsup]
    exact hinv
  · have hsup2 : duplicateSuppressed d desiredId = false := by
      cases h : duplicateSuppressed d desiredId
      · rfl
      · exact absurd h hsup
    rcases hdisj with h | ⟨hfid, hfsp, hneq⟩
    · rw [hsup2] at h
      cases h
    have hfid2 : findNode d.nodes (usedNodeId t desiredId) = none :=
      Option.isNone_iff_eq_none.mp hfid
    have hfsp2 : findNode d.nodes (spineAutoId d) = none :=
      Option.isNone_iff_eq_none.mp hfsp
    have hfreshAll : ∀ n ∈ d.nodes, n.id ≠ usedNodeId t desiredId :=
      (findNode_eq_none_iff _ _).mp hfid2
    rw [addNodeFishbone_eq t title description desiredId d hsup2]
    cases hslot : findSlot d (spineList d) with
    | some r =>
      obtain ⟨sid, pp, sl⟩ := r
      obtain ⟨l1, sN, l2, hl, hsid, hall, hcase⟩ :=
        findSlot_spec d (spineList d) sid pp sl hslot
      have hsNmem : sN ∈ spineList d := by
        rw [hl]
        exact List.mem_append_right l1 (List.mem_cons_self sN l2)
      have hsN := (mem_spineList d sN).mp hsNmem
      have hsidne : sid ≠ "" := hsid ▸ (hinv.2.2 sN hsN.1 hsN.2.1).1
      have hbne : (sid != "") = true := bne_iff_ne.mpr hsidne
      have hsidEx : ∃ m ∈ d.nodes, m.id = sid := ⟨sN, hsN.1, hsid⟩
      cases sl with
      | top =>
        rw [layoutStage_slot_top t d sid pp hslot hsidne]
        show Inv ⟨d.nodes ++ [mkNewNode t title description desiredId pp],
          if (sid != "") = true then
            d.edges ++ [mkAutoRib t (mkNewNode t title description desiredId pp).id sid true]
          else d.edges⟩
        rw [if_pos hbne]
        rcases hcase with ⟨-, hfree, hpp⟩ | ⟨hcontr, -⟩
        · refine inv_append_node_rib d sid (mkNewNode t title description desiredId pp)
            (mkAutoRib t (mkNewNode t title description desiredId pp).id sid true)
            hfreshAll (by simp [mkNewNode, hnp]) rfl rfl hsidEx ?_ hinv
          refine Or.inl ⟨?_, ?_⟩
          · rw [show (mkNewNode t title description desiredId pp).position = pp from rfl, hpp]
          · exact aboveRibCount_zero_of_free d sid (hsid ▸ hfree)
        · cases hcontr
      | bottom =>
        rw [layoutStage_slot_bottom t d sid pp hslot hsidne]
        show Inv ⟨d.nodes ++ [mkNewNode t title description desiredId pp],
          if (sid != "") = true then
            d.edges ++ [mkAutoRib t (mkNewNode t title description desiredId pp).id sid false]
          else d.edges⟩
        rw [if_pos hbne]
        rcases hcase with ⟨hcontr, -⟩ | ⟨-, -, hfree, hpp⟩
        · cases hcontr
        · refine inv_append_node_rib d sid (mkNewNode t title description desiredId pp)
            (mkAutoRib t (mkNewNode t title description desiredId pp).id sid false)
            hfreshAll (by simp [mkNewNode, hnp]) rfl rfl hsidEx ?_ hinv
          refine Or.inr ⟨?_, ?_⟩
          · rw [show (mkNewNode t title description desiredId pp).position = pp from rfl, hpp]
          · exact belowRibCount_zero_of_free d sid (hsid ▸ hfree)
    | none =>
      obtain ⟨pn, hpn⟩ := problem_find_isSome d hinv.1.2.1
      rw [layoutStage_extend t d pn hslot hpn]
      have hsane : (spineAutoId d != "") = true := bne_iff_ne.mpr (spineAutoId_ne_empty d)
      obtain ⟨hInvExt, hidsExt, hA0, hB0, hsNex⟩ := inv_extendSpine t d pn hpn hfsp2 hinv
      show Inv ⟨(extendSpine t d pn).nodes
          ++ [mkNewNode t title description desiredId ⟨pn.position.x - 250 + 350 - 150, 50⟩],
        if (spineAutoId d != "") = true then
          (extendSpine t d pn).edges
            ++ [mkAutoRib t (mkNewNode t title description desiredId
                  ⟨pn.position.x - 250 + 350 - 150, 50⟩).id (spineAutoId d) true]
        else (extendSpine t d pn).edges⟩
      rw [if_pos hsane]
      refine inv_append_node_rib (extendSpine t d pn) (spineAutoId d)
        (mkNewNode t title description desiredId ⟨pn.position.x - 250 + 350 - 150, 50⟩)
        (mkAutoRib t (mkNewNode t title description desiredId
          ⟨pn.position.x - 250 + 350 - 150, 50⟩).id (spineAutoId d) true)
        ?_ (by simp [mkNewNode, hnp]) rfl rfl hsNex (Or.inl ⟨rfl, hA0⟩) hInvExt
      intro n hn
      have hnid : n.id ∈ (extendSpine t d pn).nodes.map (fun m => m.id) :=
        List.mem_map.mpr ⟨n, hn, rfl⟩
      rw [hidsExt] at hnid
      rcases List.mem_append.mp hnid with h1 | h1
      · obtain ⟨m, hm, hmi⟩ := List.mem_map.mp h1
        exact hmi ▸ hfreshAll m hm
      · have : n.id = spineAutoId d := by simpa using h1
        rw [this]
        exact fun he => hneq he.symm

/-- Every valid command preserves all invariants. -/
theorem inv_applyCmd (t : Nat) (d : Doc) (c : Cmd) (hok : okCmd t d c) (hinv : Inv d) :
    Inv (applyCmd t d c).1 := by
  cases c with
  | clear_graph => exact hok.elim
  | unknown nm => exact hinv
  | add_node title ds did => exact inv_add_node t title ds did d hok hinv
  | connect_nodes s tg lab =>
    obtain ⟨hs, htg, hnospine⟩ := hok
    exact inv_connect t s tg lab d hs htg hnospine hinv
  | update_node i ti ds =>
    simp only [applyCmd]
    split
    · rename_i n hf
      exact inv_nodes_updateFirst d _ (mergeNode ti ds) (fun a => ⟨rfl, rfl, rfl⟩) hinv
    · exact hinv
  | add_cause targ tt nm ds =>
    simp only [applyCmd]
    split
    · split
      · exact inv_nodes_updateFirst d _ _ (fun a => ⟨rfl, rfl, rfl⟩) hinv
      · exact hinv
    · split
      · split
        · exact inv_edges_updateFirst d _ _ (fun a => ⟨rfl, rfl⟩) hinv
        · exact hinv
      · exact hinv
  | add_evidence targ tt cn nm ds =>
    simp only [applyCmd]
    split
    · split
      · exact inv_nodes_updateFirst d _ _ (fun a => ⟨rfl, rfl, rfl⟩) hinv
      · exact hinv
    · split
      · split
        · exact inv_edges_updateFirst d _ _ (fun a => ⟨rfl, rfl⟩) hinv
        · exact hinv
      · exact hinv

theorem okRun_inv {t : Nat} {d0 : Doc} {cmds : List Cmd} {dfin : Doc}
    (hr : OkRun t d0 cmds dfin) (h0 : Inv d0) : Inv dfin := by
  induction hr with
  | nil t d => exact h0
  | cons hok hrest ih => exact ih (inv_applyCmd _ _ _ hok h0)

theorem inv_initDoc : Inv initDoc := by
  unfold Inv goodDoc edgesClosed ribBounded
  refine ⟨⟨?_, ?_, ?_⟩, ?_, ?_⟩ <;> decide

/-- C2 counterexample: a single-command batch that is valid against the
tool schema — `connect_nodes` carries two non-empty ids, one of which
simply does not name an existing node — commits a document with a dangling
edge, violating the edge-closure invariant. -/
theorem invariant_broken_by_schema_valid_batch :
    (initDoc.nodes.all (fun n => n.id != "phantom")) = true ∧
    ¬ edgesClosed (runCmds 0 initDoc [Cmd.connect_nodes "phantom" "people" none]).1 := by
  constructor
  · decide
  · unfold edgesClosed
    decide

/-- C2 (amended): restricted to command sequences that are valid in the
strengthened sense — no `clear_graph`; every `connect_nodes` names two
existing nodes and a non-spine target; every `add_node` is either
duplicate-suppressed or uses fresh generated/spine-auto ids and a title not
containing "problem" — the document committed after the batch satisfies all
three invariants: every edge endpoint references an existing node, exactly
one PROBLEM node exists, and no spine node carries more than one "above"
and one "below" rib. -/
theorem invariants_preserved_by_ok_runs (t : Nat) (cmds : List Cmd) (dfin : Doc)
    (h : OkRun t initDoc cmds dfin) :
    edgesClosed dfin ∧ problemCount dfin = 1 ∧ ribBounded dfin :=
  (okRun_inv h inv_initDoc).1

/-- C2 witness: a one-command valid batch (`add_node "Supply chain"` on the
initial document) commits a document satisfying all three invariants. -/
theorem invariants_preserved_by_ok_runs_witness :
    edgesClosed (applyCmd 0 initDoc (Cmd.add_node (some "Supply chain") none none)).1 ∧
    problemCount (applyCmd 0 initDoc (Cmd.add_node (some "Supply chain") none none)).1 = 1 ∧
    ribBounded (applyCmd 0 initDoc (Cmd.add_node (some "Supply chain") none none)).1 :=
  invariants_preserved_by_ok_runs 0 [Cmd.add_node (some "Supply chain") none none]
    (applyCmd 0 initDoc (Cmd.add_node (some "Supply chain") none none)).1
    (OkRun.cons ⟨by decide, Or.inr ⟨by decide, by decide, by decide⟩⟩
      (OkRun.nil 1 (applyCmd 0 initDoc (Cmd.add_node (some "Supply chain") none none)).1))

/-- C9 witness: a payload whose `nodes` field is a number is rejected with
a format error and the current document is untouched. -/
theorem import_replaces_only_valid_witness :
    (handleFileChange (some (Json.obj [("nodes", Json.num 3)])) ⟨[Json.null], []⟩).1
      = (⟨[Json.null], []⟩ : JDoc) ∧
    ((handleFileChange (some (Json.obj [("nodes", Json.num 3)])) ⟨[Json.null], []⟩).2
        = "Error parsing file." ∨
     (handleFileChange (some (Json.obj [("nodes", Json.num 3)])) ⟨[Json.null], []⟩).2
        = "Invalid file format.") :=
  (import_replaces_only_valid (some (Json.obj [("nodes", Json.num 3)]))
    ⟨[Json.null], []⟩).1 rfl

end Fishbone
